import Mathlib

/-!
Shallow embedding of the `ts-event-manager` listener lifecycle and chaining
engine (`src/index.ts`, `src/once.ts`), used to check the natural-language
specification against the code.

Modelling conventions:
* DOM elements are opaque keys (`Nat`); events are opaque tokens (`Nat`);
  event-type tags are `String`.
* Listener references are compared by JS reference identity.  Proxies created
  inside `addListener` are always fresh objects, never reference-equal to a
  user-supplied handler, so identities live in a two-constructor type `LId`.
* `WeakMap` / `Map` become association lists; `addEventListener` /
  `setAttribute` / `observe` are idempotent in the DOM, so the physical
  attachment set, the marker-attribute set and the observed set are lists with
  set semantics (`setAdd` / `setRemove`).
* A user predicate is re-evaluated at each call site in the source; the model
  carries the value the predicate currently returns (`Option Bool`, `none`
  meaning no predicate was supplied).
* A user callback or chain stage that throws is modelled in the `Except`
  monad (`StageOutcome.err` / `Except.error`); the engine's `try`/`catch`
  blocks are translated exactly where they occur in the source.
* Asynchronous stages are awaited by the source before the next stage runs,
  so under the single-threaded model of one dispatch they are ordinary
  sequential calls.
-/

namespace TsEventManager

/-- JS reference identity of a listener value: `proxy n` is the fresh Proxy
object created by the n-th `addListener` call, `raw n` is a user-supplied
handler function. A proxy is never reference-equal to a raw handler. -/
inductive LId where
  | proxy (n : Nat)
  | raw (n : Nat)
deriving DecidableEq, Repr

/-- Whether a listener identity is a user-supplied raw handler. -/
def LId.isRawId : LId → Bool
  | .raw _ => true
  | .proxy _ => false

/-- Mirrors `EventListenerInfo` from `src/index.ts`. -/
structure EventListenerInfo where
  element : Nat
  event : String
  listener : LId
  condition : Option Bool := none
  chainId : Option String := none
  chainPosition : Option Nat := none
  isChainedHandler : Bool := false
deriving DecidableEq, Repr

/-- Association-list lookup (first matching key), mirroring `Map.get` /
`WeakMap.get`. -/
def assocGet {α β : Type} [DecidableEq α] : List (α × β) → α → Option β
  | [], _ => none
  | (k, v) :: t, k' => if k = k' then some v else assocGet t k'

/-- Association-list update, mirroring `Map.set` / `WeakMap.set`: replaces the
value at an existing key, otherwise appends a new entry. -/
def assocSet {α β : Type} [DecidableEq α] : List (α × β) → α → β → List (α × β)
  | [], k, v => [(k, v)]
  | (k', v') :: t, k, v => if k' = k then (k, v) :: t else (k', v') :: assocSet t k v

/-- Association-list deletion, mirroring `Map.delete` / `WeakMap.delete`. -/
def assocDelete {α β : Type} [DecidableEq α] (m : List (α × β)) (k : α) : List (α × β) :=
  m.filter (fun p => p.1 ≠ k)

/-- Idempotent insertion (DOM `addEventListener` / `setAttribute` /
`IntersectionObserver.observe` are no-ops when already present). -/
def setAdd {α : Type} [DecidableEq α] (s : List α) (x : α) : List α :=
  if x ∈ s then s else x :: s

/-- Removal (DOM `removeEventListener` / `removeAttribute` / `unobserve` are
no-ops when absent). -/
def setRemove {α : Type} [DecidableEq α] (s : List α) (x : α) : List α :=
  s.filter (fun y => y ≠ x)

/-- State of one `EventListenerManager` instance together with the relevant
state of its host document.

* `listenerMap` — the `WeakMap<Element, EventListenerInfo[]>`;
* `chainedHandlers` — the `Map<string, ChainedEventHandler[]>`, stage
  functions stored by identity;
* `attached` — the set of physically attached `(element, eventType, listener)`
  triples in the DOM;
* `marker` — the elements whose `data-listener-attached` attribute is set;
* `observed` — the elements observed by the IntersectionObserver;
* `visibleNow` — bookkeeping of the visibility gate: the elements whose most
  recent IntersectionObserver notification reported them intersecting;
* `inDoc` — the elements currently in the live document;
* `mutActive` — whether the MutationObserver is still connected;
* `nextId` — allocator for fresh proxy identities. -/
structure MState where
  listenerMap : List (Nat × List EventListenerInfo)
  chainedHandlers : List (String × List Nat)
  attached : List (Nat × String × LId)
  marker : List Nat
  observed : List Nat
  visibleNow : List Nat
  inDoc : List Nat
  mutActive : Bool
  nextId : Nat
deriving DecidableEq, Repr

/-- A fresh manager over a document containing the elements `doc`. -/
def initSt (doc : List Nat) : MState :=
  { listenerMap := [], chainedHandlers := [], attached := [], marker := [],
    observed := [], visibleNow := [], inDoc := doc, mutActive := true, nextId := 0 }

/-- `EventListenerManager.addListener` (src/index.ts:163-200): wrap the
listener in a fresh Proxy, append the registration to the element's list,
attach immediately when the condition is absent or currently true (the
IntersectionObserver has not reported anything yet at this point), set the
marker attribute alongside the attach, then observe the element. Returns the
new state and the proxy identity. -/
def addListener (st : MState) (el : Nat) (ev : String) (cond : Option Bool) :
    MState × LId :=
  let lid := LId.proxy st.nextId
  let listeners := (assocGet st.listenerMap el).getD []
  let listeners := listeners ++
    [{ element := el, event := ev, listener := lid, condition := cond }]
  let st1 := { st with listenerMap := assocSet st.listenerMap el listeners,
                       nextId := st.nextId + 1 }
  let st2 :=
    if cond.getD true then
      { st1 with attached := setAdd st1.attached (el, ev, lid),
                 marker := setAdd st1.marker el }
    else st1
  ({ st2 with observed := setAdd st2.observed el }, lid)

/-- `EventListenerManager.removeListener` (private, src/index.ts:208-222):
detach the triple from the DOM, unconditionally unobserve the element, drop
every registration of the element whose listener is reference-equal, delete
the element's entry when the remaining list is empty. The marker attribute is
not touched. -/
def removeListener (st : MState) (el : Nat) (ev : String) (lid : LId) : MState :=
  let att := setRemove st.attached (el, ev, lid)
  let obs := setRemove st.observed el
  let listeners := (assocGet st.listenerMap el).getD []
  let updated := listeners.filter (fun info => info.listener ≠ lid)
  let lm := if updated.length > 0 then assocSet st.listenerMap el updated
            else assocDelete st.listenerMap el
  { st with attached := att, observed := obs, listenerMap := lm }

/-- One iteration of the `listeners.forEach` loop in `handleIntersect`
(src/index.ts:230-241): recompute `shouldAttach`, read the (shared, per
element) marker attribute, and attach or detach accordingly. -/
def intersectStep (target : Nat) (isInter : Bool) (st : MState)
    (info : EventListenerInfo) : MState :=
  let shouldAttach := isInter && info.condition.getD true
  let isAtt := target ∈ st.marker
  if shouldAttach && !isAtt then
    { st with attached := setAdd st.attached (target, info.event, info.listener),
              marker := setAdd st.marker target }
  else if !shouldAttach && isAtt then
    { st with attached := setRemove st.attached (target, info.event, info.listener),
              marker := setRemove st.marker target }
  else st

/-- Processing of one IntersectionObserverEntry by `handleIntersect`
(src/index.ts:224-244). `visibleNow` records the notification for the
visibility gate; the registration list is captured once, as in the source. -/
def handleIntersectOne (st : MState) (target : Nat) (isInter : Bool) : MState :=
  let st0 := { st with visibleNow := if isInter then setAdd st.visibleNow target
                                     else setRemove st.visibleNow target }
  match assocGet st0.listenerMap target with
  | none => st0
  | some listeners => listeners.foldl (intersectStep target isInter) st0

/-- `handleIntersect` over a batch of entries. -/
def handleIntersect (st : MState) (entries : List (Nat × Bool)) : MState :=
  entries.foldl (fun s e => handleIntersectOne s e.1 e.2) st

/-- The MutationObserver callback's work for one removed node
(src/index.ts:137-146): capture the node's registration list and call
`removeListener` for each entry. -/
def mutationRemovedNode (st : MState) (node : Nat) : MState :=
  match assocGet st.listenerMap node with
  | none => st
  | some listeners =>
      listeners.foldl
        (fun s info => removeListener s info.element info.event info.listener) st

/-- The MutationObserver callback over the batch of removed nodes reported by
one mutation record set. -/
def mutationRemoved (st : MState) (batch : List Nat) : MState :=
  batch.foldl mutationRemovedNode st

/-- Leaving of a subtree (root and descendants) from the live document. -/
def docRemove (st : MState) (root : Nat) (descs : List Nat) : MState :=
  { st with inDoc := st.inDoc.filter (fun e => decide (e ∉ root :: descs)) }

/-- Removal of a subtree from the live document: the root and its descendants
leave the document, and the MutationObserver (when still connected) reports
only the subtree root in `removedNodes`. -/
def removeSubtree (st : MState) (root : Nat) (descs : List Nat) : MState :=
  let st0 := docRemove st root descs
  if st0.mutActive then mutationRemoved st0 [root] else st0

/-- The per-element body of `cleanUp`'s `querySelectorAll` loop
(src/index.ts:292-300): when the element still has a registry entry, remove
each listener and the marker attribute; otherwise do nothing (the marker
survives). -/
def cleanupElement (st : MState) (el : Nat) : MState :=
  match assocGet st.listenerMap el with
  | none => st
  | some listeners =>
      listeners.foldl
        (fun s info =>
          { s with attached := setRemove s.attached (el, info.event, info.listener),
                   marker := setRemove s.marker el }) st

/-- `EventListenerManager.cleanUp` (src/index.ts:286-304): disconnect both
observers, iterate the static snapshot of in-document elements carrying the
marker attribute, then replace the listener map with a fresh empty one. -/
def cleanUp (st : MState) : MState :=
  let st0 := { st with observed := [], mutActive := false }
  let marked := st0.inDoc.filter (fun e => decide (e ∈ st0.marker))
  let st1 := marked.foldl cleanupElement st0
  { st1 with listenerMap := [] }

/-- The `handlers.forEach` body at the end of `createEventChain`
(src/index.ts:348-361): push one registration per stage, with the raw stage
handler as listener, tagged with the chain id and its position. `p` is the
`(index, handler)` pair. -/
def pushChainInfo (el : Nat) (ev : String) (cid : String) (s : MState)
    (p : Nat × Nat) : MState :=
  let info : EventListenerInfo :=
    { element := el, event := ev, listener := LId.raw p.2,
      condition := none, chainId := some cid, chainPosition := some p.1,
      isChainedHandler := true }
  let listeners := (assocGet s.listenerMap el).getD []
  { s with listenerMap := assocSet s.listenerMap el (listeners ++ [info]) }

/-- `EventListenerManager.createEventChain` (src/index.ts:313-362): reject a
duplicate id before any mutation, store the stage list, install the chain
executor through `addListener` (no condition), then push one registration per
stage; these stage registrations are not physically attached. -/
def createEventChain (st : MState) (cid : String) (el : Nat) (ev : String)
    (handlers : List Nat) : Except String MState :=
  if (assocGet st.chainedHandlers cid).isSome then
    Except.error ("Chain with ID " ++ cid ++ " already exists")
  else
    let st1 := { st with chainedHandlers := assocSet st.chainedHandlers cid handlers }
    let st2 := (addListener st1 el ev none).1
    let st3 := handlers.enum.foldl (pushChainInfo el ev cid) st2
    Except.ok st3

/-- The per-element body of the `querySelectorAll` loop in `removeEventChain`
(src/index.ts:374-382): remove, via `removeListener`, each registration of
the element tagged with the chain id. -/
def removeChainInfosAt (cid : String) (s : MState) (el : Nat) : MState :=
  match assocGet s.listenerMap el with
  | none => s
  | some listeners =>
      (listeners.filter (fun info => info.chainId = some cid)).foldl
        (fun s2 info => removeListener s2 info.element info.event info.listener)
        s

/-- `EventListenerManager.removeEventChain` (src/index.ts:368-385): no-op for
an unknown id; otherwise walk every element of the document, remove each
registration tagged with the chain id, and delete the stage list. The
executor registration carries no chain id and is not removed. -/
def removeEventChain (st : MState) (cid : String) : MState :=
  if (assocGet st.chainedHandlers cid).isNone then st
  else
    let st1 := st.inDoc.foldl (removeChainInfosAt cid) st
    { st1 with chainedHandlers := assocDelete st1.chainedHandlers cid }

/-- Index normalization of JavaScript `Array.prototype.splice` for a start
argument `pos` on an array of length `len`: negative values count from the
end (clamped at 0), values beyond the length are clamped to the length. -/
def spliceIndex (len : Nat) (pos : Int) : Nat :=
  if pos < 0 then (Int.ofNat len + pos).toNat else min pos.toNat len

/-- `EventListenerManager.addToChain` (src/index.ts:393-410): unknown id is an
error; otherwise `handlers.splice(position, 0, handler)` when a position is
given, else push at the end, and store the list back. -/
def addToChain (st : MState) (cid : String) (h : Nat) (pos : Option Int) :
    Except String MState :=
  match assocGet st.chainedHandlers cid with
  | none => Except.error ("Chain with ID " ++ cid ++ " does not exist")
  | some handlers =>
      let handlers :=
        match pos with
        | some p =>
            let i := spliceIndex handlers.length p
            handlers.take i ++ h :: handlers.drop i
        | none => handlers ++ [h]
      Except.ok { st with chainedHandlers := assocSet st.chainedHandlers cid handlers }

/-- Result of one stage call: `ok data cont` mirrors a returned
`ChainedEventResult`, `err` mirrors a thrown exception. -/
inductive StageOutcome (D : Type) where
  | ok (data : D) (cont : Bool)
  | err (msg : String)
deriving DecidableEq, Repr

/-- A chain stage (`ChainedEventHandler`): receives the event and the current
data (`none` on the first stage of a dispatch). -/
def Stage (D : Type) : Type := Nat → Option D → StageOutcome D

/-- Observable behaviour of one chain dispatch: the invoked stages in order,
each with the index it had in the stage list and the data it received, and
the number of failures caught and logged. -/
structure ChainRun (D : Type) where
  calls : List (Nat × Option D)
  errors : Nat
deriving DecidableEq, Repr

/-- The loop body of `chainExecutor` (src/index.ts:326-342), indexing invoked
stages from `i`: invoke the stage with the current data; a thrown failure is
logged (`console.error`) and breaks the loop; `continue = false` breaks the
loop without error; otherwise the returned data becomes current and the next
stage runs. -/
def runChainFrom {D : Type} : List (Stage D) → Nat → Nat → Option D → ChainRun D
  | [], _, _, _ => ⟨[], 0⟩
  | f :: t, ev, i, cur =>
      match f ev cur with
      | .err _ => ⟨[(i, cur)], 1⟩
      | .ok d c =>
          if c then
            let r := runChainFrom t ev (i + 1) (some d)
            ⟨(i, cur) :: r.calls, r.errors⟩
          else ⟨[(i, cur)], 0⟩

/-- One triggering event dispatched to `chainExecutor`: data starts undefined. -/
def runChain {D : Type} (stages : List (Stage D)) (ev : Nat) : ChainRun D :=
  runChainFrom stages ev 0 none

/-- Dispatch of a triggering event to the executor installed for chain `cid`:
the executor re-reads the stage list from the chain table
(`this.chainedHandlers.get(chainId) || []`) on every trigger. `env` maps a
stored stage identity to the stage function it denotes. -/
def execChain {D : Type} (env : Nat → Stage D) (st : MState) (cid : String)
    (ev : Nat) : ChainRun D :=
  runChain (((assocGet st.chainedHandlers cid).getD []).map env) ev

/-- Observable outcome of one dispatch through the conditional-listener Proxy. -/
structure ApplyOutcome where
  invoked : Bool
  errLogged : Bool
deriving DecidableEq, Repr

/-- The Proxy `apply` trap installed by `addListener` (src/index.ts:173-185),
in the `Except` monad: an `.error` escaping the function would be an uncaught
exception on the dispatching call. The body runs the user callback only when
the condition is absent or true, and its `try`/`catch` converts a thrown
failure into a `console.error` log. -/
def proxyApply (condition : Option Bool) (target : Nat → Except String Unit)
    (ev : Nat) : Except String ApplyOutcome :=
  match (if condition.getD true then (target ev).map (fun _ => true)
         else Except.ok false) with
  | .ok inv => Except.ok ⟨inv, false⟩
  | .error _ => Except.ok ⟨true, true⟩

/-- A JS event listener value: a plain function or an object with a
`handleEvent` method (src/once.ts distinguishes the two shapes). -/
inductive JsListener (R : Type) where
  | fn (f : Nat → R)
  | obj (handle : Nat → R)

/-- Invoking a listener value on an event. -/
def callListener {R : Type} : JsListener R → Nat → R
  | .fn f, ev => f ev
  | .obj h, ev => h ev

/-- One dispatch to the wrapper returned by `once` (src/once.ts:6-24): both
the function shape and the `handleEvent` shape consult and then set the
captured `fired` flag, invoking the underlying listener and returning its
result only when the flag was still clear. -/
def onceStep {R : Type} (l : JsListener R) (fired : Bool) (ev : Nat) :
    Bool × Option R :=
  if fired then (fired, none)
  else (true, some (callListener l ev))

/-- Dispatching a sequence of events to the wrapper returned by `once`,
starting from a given `fired` flag; yields the value returned to each
dispatch (`none` when the underlying listener was not invoked). -/
def onceRun {R : Type} (l : JsListener R) : Bool → List Nat → List (Option R)
  | _, [] => []
  | fired, ev :: rest =>
      let p := onceStep l fired ev
      p.2 :: onceRun l p.1 rest

/-- The operations a client, the IntersectionObserver, the MutationObserver
and page teardown can perform on one manager, as modelled above. -/
inductive Step where
  | add (el : Nat) (ev : String) (cond : Option Bool)
  | intersect (entries : List (Nat × Bool))
  | removeSub (root : Nat) (descs : List Nat)
  | createChain (cid : String) (el : Nat) (ev : String) (hs : List Nat)
  | removeChain (cid : String)
  | addStage (cid : String) (h : Nat) (pos : Option Int)
  | clean

/-- Applying one operation; the two throwing operations leave the state as it
was when they throw (their guard runs before any mutation in the source). -/
def applyStep (st : MState) : Step → MState
  | .add el ev cond => (addListener st el ev cond).1
  | .intersect es => handleIntersect st es
  | .removeSub r ds => removeSubtree st r ds
  | .createChain cid el ev hs =>
      match createEventChain st cid el ev hs with
      | .ok st' => st'
      | .error _ => st
  | .removeChain cid => removeEventChain st cid
  | .addStage cid h pos =>
      match addToChain st cid h pos with
      | .ok st' => st'
      | .error _ => st
  | .clean => cleanUp st

/-- A manager over document `doc` after a sequence of operations. -/
def run (doc : List Nat) (steps : List Step) : MState :=
  steps.foldl applyStep (initSt doc)

/-- Stage returning data `d` and continuing, for concrete dispatch checks. -/
def stageOkC (d : Nat) : Stage Nat := fun _ _ => .ok d true

/-- Stage returning data 2 and stopping the chain. -/
def stageStop : Stage Nat := fun _ _ => .ok 2 false

/-- Stage that throws on event 0 and returns data 2 otherwise. -/
def stageErrOn0 : Stage Nat := fun ev _ =>
  if ev = 0 then .err "boom" else .ok 2 true

/-- Data threaded through the concrete chains: undefined first, then the
value produced by the previous stage. -/
def wInp : Nat → Option Nat := fun j =>
  match j with
  | 0 => none
  | m + 1 => some (m + 1)

/-- Data produced by stage `j` in the concrete chains. -/
def wOut : Nat → Nat := fun j => j + 1

/-- State of a manager over the one-element document `[0]` holding exactly
chain "c" with the single stage handler `100` on element 0. -/
def chainSt : MState :=
  match createEventChain (initSt [0]) "c" 0 "click" [100] with
  | .ok s => s
  | .error _ => initSt []

/-- Like `chainSt` but with stage handler `10`, used for stage-insertion
checks. -/
def chainSt10 : MState :=
  match createEventChain (initSt [0]) "c" 0 "click" [10] with
  | .ok s => s
  | .error _ => initSt []

/-- One registration on element 0, no predicate, no visibility notification
processed yet. -/
def oneRegSt : MState := (addListener (initSt [0]) 0 "click" none).1

/-- The registration held by `oneRegSt`: element 0, event "click", the first
proxy, no predicate. -/
def regInfo0 : EventListenerInfo :=
  { element := 0, event := "click", listener := LId.proxy 0 }

/-- The spec's claimed invariant: a registration is physically attached to
its element exactly when its predicate is absent or true and the element is
currently visible per the visibility gate. -/
def attachIffGate (st : MState) : Prop :=
  ∀ p ∈ st.listenerMap, ∀ info ∈ p.2,
    ((info.element, info.event, info.listener) ∈ st.attached ↔
      (info.condition.getD true = true ∧ info.element ∈ st.visibleNow))

/-- Chain-tagged registrations hold raw stage handlers as listeners. -/
def RawTagged (s : MState) : Prop :=
  ∀ p ∈ s.listenerMap, ∀ i ∈ p.2, i.chainId.isSome → i.listener.isRawId = true

/-- Structural wellformedness of the registry that every reachable manager
state satisfies: entries are nonempty, registrations sit under their own
element's key, every entry contains at least one proxy-listener registration
(the one `addListener` pushed), and chain-tagged registrations hold raw stage
handlers as listeners. -/
def MapWF (st : MState) : Prop :=
  (∀ p ∈ st.listenerMap, p.2 ≠ []) ∧
  (∀ p ∈ st.listenerMap, ∀ i ∈ p.2, i.element = p.1) ∧
  (∀ p ∈ st.listenerMap, ∃ i ∈ p.2, i.listener.isRawId = false) ∧
  RawTagged st

/-- Every in-document element carrying the marker attribute still has a
registry entry. -/
def MarkerWF (st : MState) : Prop :=
  ∀ el, el ∈ st.marker → el ∈ st.inDoc → (assocGet st.listenerMap el).isSome

/-- Invariant carried through every operation of the manager. -/
def WF (st : MState) : Prop := MapWF st ∧ MarkerWF st

/-- Every registration is stored under its own element's key (the second
clause of `MapWF` in isolation). -/
def Keyed (s : MState) : Prop :=
  ∀ p ∈ s.listenerMap, ∀ i ∈ p.2, i.element = p.1

/-- No registration of element `el` is tagged with chain `cid`. -/
def NoCid (cid : String) (s : MState) (el : Nat) : Prop :=
  ∀ l, assocGet s.listenerMap el = some l → ∀ x ∈ l, x.chainId ≠ some cid

section BasicLemmas

variable {α β : Type} [DecidableEq α]

theorem mem_setAdd {s : List α} {x y : α} : y ∈ setAdd s x ↔ y = x ∨ y ∈ s := by
  unfold setAdd
  split
  · next h =>
    constructor
    · exact fun hy => Or.inr hy
    · rintro (rfl | hy)
      · exact h
      · exact hy
  · simp [List.mem_cons]

theorem mem_setRemove {s : List α} {x y : α} :
    y ∈ setRemove s x ↔ y ∈ s ∧ y ≠ x := by
  simp [setRemove, List.mem_filter]

theorem setRemove_eq_of_not_mem {s : List α} {x : α} (h : x ∉ s) :
    setRemove s x = s := by
  apply List.filter_eq_self.mpr
  intro a ha
  simp only [ne_eq, decide_eq_true_eq]
  exact fun hax => h (hax ▸ ha)

theorem setRemove_setRemove (s : List α) (x : α) :
    setRemove (setRemove s x) x = setRemove s x :=
  setRemove_eq_of_not_mem (fun h => ((mem_setRemove.mp h).2 rfl))

theorem assocGet_set_self (m : List (α × β)) (k : α) (v : β) :
    assocGet (assocSet m k v) k = some v := by
  induction m with
  | nil => simp [assocSet, assocGet]
  | cons p t ih =>
      obtain ⟨a, b⟩ := p
      by_cases h : a = k
      · simp [assocSet, assocGet, h]
      · simp [assocSet, assocGet, h, ih]

theorem assocGet_set_ne (m : List (α × β)) (k k' : α) (v : β) (h : k' ≠ k) :
    assocGet (assocSet m k v) k' = assocGet m k' := by
  have hk : ¬k = k' := fun e => h e.symm
  induction m with
  | nil => simp [assocSet, assocGet, hk]
  | cons p t ih =>
      obtain ⟨a, b⟩ := p
      by_cases hp : a = k
      · have hp' : ¬a = k' := fun e => h (e ▸ hp)
        simp [assocSet, assocGet, hp, hp', hk]
      · by_cases hp' : a = k'
        · simp [assocSet, assocGet, hp, hp', h]
        · simp [assocSet, assocGet, hp, hp', ih]

theorem assocSet_get_self (m : List (α × β)) (k : α) (v : β)
    (h : assocGet m k = some v) : assocSet m k v = m := by
  induction m with
  | nil => simp [assocGet] at h
  | cons p t ih =>
      obtain ⟨a, b⟩ := p
      by_cases hp : a = k
      · subst hp
        simp [assocGet] at h
        simp [assocSet, h]
      · simp [assocGet, hp] at h
        simp [assocSet, hp, ih h]

theorem assocGet_delete_self (m : List (α × β)) (k : α) :
    assocGet (assocDelete m k) k = none := by
  induction m with
  | nil => simp [assocDelete, assocGet]
  | cons p t ih =>
      obtain ⟨a, b⟩ := p
      by_cases hp : a = k
      · simpa [assocDelete, hp] using ih
      · simpa [assocDelete, assocGet, hp] using ih

theorem assocGet_delete_ne (m : List (α × β)) (k k' : α) (h : k' ≠ k) :
    assocGet (assocDelete m k) k' = assocGet m k' := by
  have hk : ¬k = k' := fun e => h e.symm
  induction m with
  | nil => simp [assocDelete]
  | cons p t ih =>
      obtain ⟨a, b⟩ := p
      by_cases hp : a = k
      · have hp' : ¬a = k' := fun e => h (e ▸ hp)
        simpa [assocDelete, assocGet, hp, hp', hk] using ih
      · by_cases hp' : a = k'
        · simp [assocDelete, assocGet, hp, hp', h]
        · simpa [assocDelete, assocGet, hp, hp'] using ih

theorem assocGet_eq_none_no_entry (m : List (α × β)) (k : α)
    (h : assocGet m k = none) : ∀ v : β, (k, v) ∉ m := by
  induction m with
  | nil => simp
  | cons p t ih =>
      obtain ⟨a, b⟩ := p
      intro v hv
      by_cases hp : a = k
      · simp [assocGet, hp] at h
      · simp [assocGet, hp] at h
        rcases List.mem_cons.mp hv with he | ht
        · exact hp (congrArg Prod.fst he.symm)
        · exact ih h v ht

theorem assocDelete_of_get_none (m : List (α × β)) (k : α)
    (h : assocGet m k = none) : assocDelete m k = m := by
  apply List.filter_eq_self.mpr
  intro p hp
  simp only [ne_eq, decide_eq_true_eq]
  intro hk
  exact assocGet_eq_none_no_entry m k h p.2 (by rw [← hk]; exact hp)

theorem assocGet_mem (m : List (α × β)) (k : α) (v : β)
    (h : assocGet m k = some v) : (k, v) ∈ m := by
  induction m with
  | nil => simp [assocGet] at h
  | cons p t ih =>
      obtain ⟨a, b⟩ := p
      by_cases hp : a = k
      · simp [assocGet, hp] at h
        exact List.mem_cons.mpr (Or.inl (by rw [← hp, ← h]))
      · simp [assocGet, hp] at h
        exact List.mem_cons.mpr (Or.inr (ih h))

theorem mem_assocSet (m : List (α × β)) (k : α) (v : β) (p : α × β)
    (h : p ∈ assocSet m k v) : p = (k, v) ∨ p ∈ m := by
  induction m with
  | nil => simpa [assocSet] using h
  | cons q t ih =>
      obtain ⟨a, b⟩ := q
      by_cases hq : a = k
      · simp [assocSet, hq, List.mem_cons] at h
        rcases h with he | ht
        · exact Or.inl (by simp [he])
        · exact Or.inr (List.mem_cons.mpr (Or.inr ht))
      · simp [assocSet, hq, List.mem_cons] at h
        rcases h with he | ht
        · exact Or.inr (List.mem_cons.mpr (Or.inl (by simp [he])))
        · rcases ih ht with h1 | h2
          · exact Or.inl h1
          · exact Or.inr (List.mem_cons.mpr (Or.inr h2))

theorem assocDelete_assocSet (m : List (α × β)) (k : α) (v : β) :
    assocDelete (assocSet m k v) k = assocDelete m k := by
  induction m with
  | nil => simp [assocSet, assocDelete]
  | cons p t ih =>
      obtain ⟨a, b⟩ := p
      by_cases hp : a = k
      · simp [assocSet, assocDelete, hp]
      · simp only [assocSet, if_neg hp]
        simp only [assocDelete] at ih ⊢
        simp only [ne_eq, decide_not] at ih ⊢
        simp [List.filter_cons, hp, ih]

end BasicLemmas

section ChainLemmas

variable {D : Type}

theorem runChainFrom_nil (ev i : Nat) (cur : Option D) :
    runChainFrom ([] : List (Stage D)) ev i cur = ⟨[], 0⟩ := rfl

theorem runChainFrom_cons (f : Stage D) (t : List (Stage D)) (ev i : Nat)
    (cur : Option D) :
    runChainFrom (f :: t) ev i cur =
      match f ev cur with
      | .err _ => ⟨[(i, cur)], 1⟩
      | .ok d c =>
          if c then
            let r := runChainFrom t ev (i + 1) (some d)
            ⟨(i, cur) :: r.calls, r.errors⟩
          else ⟨[(i, cur)], 0⟩ := rfl

/-- Trace of the executor loop when the stages up to index `k` return
`continue = true` and stage `k` returns `continue = false`: the loop invokes
exactly stages `0..k` in order, each with the data produced by its
predecessor, and logs no error. -/
theorem runChainFrom_stop (ev : Nat) :
    ∀ (k : Nat) (l : List (Stage D)) (i : Nat) (inp : Nat → Option D)
      (outD : Nat → D) (dk : D),
      (∀ j, j < k → ∃ f, l.get? j = some f ∧ f ev (inp j) = .ok (outD j) true) →
      (∀ j, inp (j + 1) = some (outD j)) →
      (∃ f, l.get? k = some f ∧ f ev (inp k) = .ok dk false) →
      runChainFrom l ev i (inp 0) =
        ⟨(List.range (k + 1)).map (fun j => (i + j, inp j)), 0⟩ := by
  intro k
  induction k with
  | zero =>
      intro l i inp outD dk _ _ hstop
      obtain ⟨f, hget, hf⟩ := hstop
      cases l with
      | nil => simp at hget
      | cons g t =>
          simp [List.get?] at hget
          subst hget
          simp [runChainFrom_cons, hf, List.range_succ]
  | succ k ih =>
      intro l i inp outD dk hpre hstep hstop
      obtain ⟨f0, hget0, hf0⟩ := hpre 0 (Nat.succ_pos k)
      cases l with
      | nil => simp at hget0
      | cons g t =>
          simp [List.get?] at hget0
          subst hget0
          have hrec := ih t (i + 1) (fun j => inp (j + 1)) (fun j => outD (j + 1)) dk
            (fun j hj => hpre (j + 1) (Nat.succ_lt_succ hj))
            (fun j => hstep (j + 1))
            hstop
          have h1 : inp 1 = some (outD 0) := by simpa using hstep 0
          have hrec2 : runChainFrom t ev (i + 1) (some (outD 0)) =
              ⟨(List.range (k + 1)).map (fun j => (i + 1 + j, inp (j + 1))), 0⟩ := by
            rw [← h1]
            simpa using hrec
          have hred : runChainFrom (g :: t) ev i (inp 0) =
              ⟨(i, inp 0) :: (runChainFrom t ev (i + 1) (some (outD 0))).calls,
                (runChainFrom t ev (i + 1) (some (outD 0))).errors⟩ := by
            rw [runChainFrom_cons, hf0]
            rfl
          rw [hred, hrec2]
          have hmap : (List.range (k + 1 + 1)).map (fun j => (i + j, inp j)) =
              (i, inp 0) :: (List.range (k + 1)).map (fun j => (i + 1 + j, inp (j + 1))) := by
            have h2 : ((fun j => (i + j, inp j)) ∘ Nat.succ) =
                (fun j => (i + 1 + j, inp (j + 1))) := by
              funext j
              have hj : i + Nat.succ j = i + 1 + j := by omega
              simp [Function.comp, hj]
            rw [List.range_succ_eq_map, List.map_cons, List.map_map, h2]
            simp
          rw [hmap]

/-- Trace of the executor loop when the stages up to index `k` return
`continue = true` and stage `k` throws: the loop invokes exactly stages
`0..k` in order, logs one error, and returns normally. -/
theorem runChainFrom_err (ev : Nat) :
    ∀ (k : Nat) (l : List (Stage D)) (i : Nat) (inp : Nat → Option D)
      (outD : Nat → D) (msg : String),
      (∀ j, j < k → ∃ f, l.get? j = some f ∧ f ev (inp j) = .ok (outD j) true) →
      (∀ j, inp (j + 1) = some (outD j)) →
      (∃ f, l.get? k = some f ∧ f ev (inp k) = .err msg) →
      runChainFrom l ev i (inp 0) =
        ⟨(List.range (k + 1)).map (fun j => (i + j, inp j)), 1⟩ := by
  intro k
  induction k with
  | zero =>
      intro l i inp outD msg _ _ hstop
      obtain ⟨f, hget, hf⟩ := hstop
      cases l with
      | nil => simp at hget
      | cons g t =>
          simp [List.get?] at hget
          subst hget
          simp [runChainFrom_cons, hf, List.range_succ]
  | succ k ih =>
      intro l i inp outD msg hpre hstep hstop
      obtain ⟨f0, hget0, hf0⟩ := hpre 0 (Nat.succ_pos k)
      cases l with
      | nil => simp at hget0
      | cons g t =>
          simp [List.get?] at hget0
          subst hget0
          have hrec := ih t (i + 1) (fun j => inp (j + 1)) (fun j => outD (j + 1)) msg
            (fun j hj => hpre (j + 1) (Nat.succ_lt_succ hj))
            (fun j => hstep (j + 1))
            hstop
          have h1 : inp 1 = some (outD 0) := by simpa using hstep 0
          have hrec2 : runChainFrom t ev (i + 1) (some (outD 0)) =
              ⟨(List.range (k + 1)).map (fun j => (i + 1 + j, inp (j + 1))), 1⟩ := by
            rw [← h1]
            simpa using hrec
          have hred : runChainFrom (g :: t) ev i (inp 0) =
              ⟨(i, inp 0) :: (runChainFrom t ev (i + 1) (some (outD 0))).calls,
                (runChainFrom t ev (i + 1) (some (outD 0))).errors⟩ := by
            rw [runChainFrom_cons, hf0]
            rfl
          rw [hred, hrec2]
          have hmap : (List.range (k + 1 + 1)).map (fun j => (i + j, inp j)) =
              (i, inp 0) :: (List.range (k + 1)).map (fun j => (i + 1 + j, inp (j + 1))) := by
            have h2 : ((fun j => (i + j, inp j)) ∘ Nat.succ) =
                (fun j => (i + 1 + j, inp (j + 1))) := by
              funext j
              have hj : i + Nat.succ j = i + 1 + j := by omega
              simp [Function.comp, hj]
            rw [List.range_succ_eq_map, List.map_cons, List.map_map, h2]
            simp
          rw [hmap]

/-- Trace of the executor loop when every stage returns `continue = true`:
all stages run in order with the threaded data and no error is logged. -/
theorem runChainFrom_full (ev : Nat) :
    ∀ (l : List (Stage D)) (i : Nat) (inp : Nat → Option D) (outD : Nat → D),
      (∀ j, j < l.length → ∃ f, l.get? j = some f ∧ f ev (inp j) = .ok (outD j) true) →
      (∀ j, inp (j + 1) = some (outD j)) →
      runChainFrom l ev i (inp 0) =
        ⟨(List.range l.length).map (fun j => (i + j, inp j)), 0⟩ := by
  intro l
  induction l with
  | nil => intro i inp outD _ _; simp [runChainFrom_nil]
  | cons g t ih =>
      intro i inp outD hpre hstep
      obtain ⟨f0, hget0, hf0⟩ := hpre 0 (Nat.succ_pos t.length)
      simp [List.get?] at hget0
      subst hget0
      have hrec := ih (i + 1) (fun j => inp (j + 1)) (fun j => outD (j + 1))
        (fun j hj => hpre (j + 1) (Nat.succ_lt_succ hj))
        (fun j => hstep (j + 1))
      have h1 : inp 1 = some (outD 0) := by simpa using hstep 0
      have hrec2 : runChainFrom t ev (i + 1) (some (outD 0)) =
          ⟨(List.range t.length).map (fun j => (i + 1 + j, inp (j + 1))), 0⟩ := by
        rw [← h1]
        simpa using hrec
      have hred : runChainFrom (g :: t) ev i (inp 0) =
          ⟨(i, inp 0) :: (runChainFrom t ev (i + 1) (some (outD 0))).calls,
            (runChainFrom t ev (i + 1) (some (outD 0))).errors⟩ := by
        rw [runChainFrom_cons, hf0]
        rfl
      rw [hred, hrec2]
      have hmap : (List.range (g :: t).length).map (fun j => (i + j, inp j)) =
          (i, inp 0) :: (List.range t.length).map (fun j => (i + 1 + j, inp (j + 1))) := by
        have h2 : ((fun j => (i + j, inp j)) ∘ Nat.succ) =
            (fun j => (i + 1 + j, inp (j + 1))) := by
          funext j
          have hj : i + Nat.succ j = i + 1 + j := by omega
          simp [Function.comp, hj]
        rw [List.length_cons, List.range_succ_eq_map, List.map_cons, List.map_map, h2]
        simp
      rw [hmap]

end ChainLemmas

section ChainClaims

/-- C2: on each triggering event the chain executor starts with undefined
data, invokes the stages strictly in list order (each asynchronous stage
awaited before the next starts), passes each stage the event together with
the data returned by the previous stage, and when stage `k` returns
`continue = false` the stages after `k` are not invoked on that trigger and
no error is raised. -/
theorem chain_stops_after_continue_false {D : Type}
    (stages : List (Stage D)) (ev k : Nat) (inp : Nat → Option D)
    (outD : Nat → D) (dk : D)
    (hinp0 : inp 0 = none)
    (hpre : ∀ j, j < k →
      ∃ f, stages.get? j = some f ∧ f ev (inp j) = .ok (outD j) true)
    (hstep : ∀ j, inp (j + 1) = some (outD j))
    (hstop : ∃ f, stages.get? k = some f ∧ f ev (inp k) = .ok dk false) :
    runChain stages ev = ⟨(List.range (k + 1)).map (fun j => (j, inp j)), 0⟩ := by
  unfold runChain
  rw [← hinp0]
  have h := runChainFrom_stop ev k stages 0 inp outD dk hpre hstep hstop
  simpa using h

theorem chain_stops_after_continue_false_witness :
    runChain [stageOkC 1, stageStop, stageOkC 3] 7 =
      ⟨[(0, none), (1, some 1)], 0⟩ := by
  have h := chain_stops_after_continue_false [stageOkC 1, stageStop, stageOkC 3]
    7 1 wInp wOut 2 rfl
    (by intro j hj
        have hj0 : j = 0 := by omega
        subst hj0
        exact ⟨stageOkC 1, rfl, rfl⟩)
    (fun j => rfl)
    ⟨stageStop, rfl, rfl⟩
  rw [h]
  rfl

/-- C3: a failure thrown by a user callback is caught inside the
conditional-listener Proxy wrapper and converted into a log, never escaping
the dispatching call; a failure thrown by stage `k` of a chain is caught by
the executor, logged, and stops only the current dispatch after stages
`0..k`; on a later triggering event on which the stages succeed the chain
runs in full again. -/
theorem callback_failures_isolated {D : Type}
    (cond : Option Bool) (cb : Nat → Except String Unit) (ev0 : Nat)
    (stages : List (Stage D)) (ev1 ev2 k : Nat)
    (inp inp2 : Nat → Option D) (outD outD2 : Nat → D) (msg : String)
    (hinp0 : inp 0 = none)
    (hpre : ∀ j, j < k →
      ∃ f, stages.get? j = some f ∧ f ev1 (inp j) = .ok (outD j) true)
    (hstep : ∀ j, inp (j + 1) = some (outD j))
    (herr : ∃ f, stages.get? k = some f ∧ f ev1 (inp k) = .err msg)
    (hinp20 : inp2 0 = none)
    (hfull : ∀ j, j < stages.length →
      ∃ f, stages.get? j = some f ∧ f ev2 (inp2 j) = .ok (outD2 j) true)
    (hstep2 : ∀ j, inp2 (j + 1) = some (outD2 j)) :
    (∃ r, proxyApply cond cb ev0 = Except.ok r ∧
      (r.errLogged = true ↔
        (cond.getD true = true ∧ ∃ e, cb ev0 = Except.error e))) ∧
    runChain stages ev1 = ⟨(List.range (k + 1)).map (fun j => (j, inp j)), 1⟩ ∧
    runChain stages ev2 =
      ⟨(List.range stages.length).map (fun j => (j, inp2 j)), 0⟩ := by
  refine ⟨?_, ?_, ?_⟩
  · cases hcnd : cond.getD true
    · refine ⟨⟨false, false⟩, ?_, ?_⟩
      · unfold proxyApply
        rw [hcnd]
        rfl
      · simp [hcnd]
    · cases hcb : cb ev0 with
      | ok u =>
          refine ⟨⟨true, false⟩, ?_, ?_⟩
          · unfold proxyApply
            rw [hcnd, hcb]
            rfl
          · simp [hcb]
      | error e =>
          refine ⟨⟨true, true⟩, ?_, ?_⟩
          · unfold proxyApply
            rw [hcnd, hcb]
            rfl
          · simp [hcnd, hcb]
  · unfold runChain
    rw [← hinp0]
    have h := runChainFrom_err ev1 k stages 0 inp outD msg hpre hstep herr
    simpa using h
  · unfold runChain
    rw [← hinp20]
    have h := runChainFrom_full ev2 stages 0 inp2 outD2 hfull hstep2
    simpa using h

theorem callback_failures_isolated_witness :
    (∃ r, proxyApply (some true) (fun _ => Except.error "x") 5 = Except.ok r ∧
      (r.errLogged = true ↔
        ((some true).getD true = true ∧
          ∃ e, (Except.error "x" : Except String Unit) = Except.error e))) ∧
    runChain [stageOkC 1, stageErrOn0, stageOkC 3] 0 =
      ⟨[(0, none), (1, some 1)], 1⟩ ∧
    runChain [stageOkC 1, stageErrOn0, stageOkC 3] 1 =
      ⟨[(0, none), (1, some 1), (2, some 2)], 0⟩ := by
  have h := callback_failures_isolated (some true) (fun _ => Except.error "x") 5
    [stageOkC 1, stageErrOn0, stageOkC 3] 0 1 1 wInp wInp wOut wOut "boom" rfl
    (by intro j hj
        have hj0 : j = 0 := by omega
        subst hj0
        exact ⟨stageOkC 1, rfl, rfl⟩)
    (fun j => rfl)
    ⟨stageErrOn0, rfl, rfl⟩
    rfl
    (by intro j hj
        simp only [List.length_cons, List.length_nil] at hj
        interval_cases j
        · exact ⟨stageOkC 1, rfl, rfl⟩
        · exact ⟨stageErrOn0, rfl, rfl⟩
        · exact ⟨stageOkC 3, rfl, rfl⟩)
    (fun j => rfl)
  obtain ⟨h1, h2, h3⟩ := h
  refine ⟨h1, ?_, ?_⟩
  · rw [h2]; rfl
  · rw [h3]; rfl

end ChainClaims

section OnceClaim

/-- C10: the wrapper returned by `once` invokes the underlying listener
(function-shaped or `handleEvent` object) exactly once over any dispatched
event sequence — on the first event, returning the listener's result — and
returns without invoking the listener on every later event. -/
theorem once_fires_at_most_once {R : Type} (l : JsListener R) (evs : List Nat) :
    onceRun l false evs =
      match evs with
      | [] => []
      | e :: rest => some (callListener l e) :: rest.map (fun _ => (none : Option R)) := by
  have hfired : ∀ es : List Nat, onceRun l true es =
      es.map (fun _ => (none : Option R)) := by
    intro es
    induction es with
    | nil => rfl
    | cons x xs ih => simp [onceRun, onceStep, ih]
  cases evs with
  | nil => rfl
  | cons e rest => simp [onceRun, onceStep, hfired]

end OnceClaim

section CreateChainClaim

theorem setAdd_of_not_mem {α : Type} [DecidableEq α] {s : List α} {x : α}
    (h : x ∉ s) : setAdd s x = x :: s := by
  simp [setAdd, h]

/-- Pushing stage registrations touches only the listener map. -/
theorem pushChainInfo_fold_fields (el : Nat) (ev cid : String)
    (ps : List (Nat × Nat)) :
    ∀ s : MState,
      (ps.foldl (pushChainInfo el ev cid) s).attached = s.attached ∧
      (ps.foldl (pushChainInfo el ev cid) s).chainedHandlers = s.chainedHandlers ∧
      (ps.foldl (pushChainInfo el ev cid) s).marker = s.marker ∧
      (ps.foldl (pushChainInfo el ev cid) s).observed = s.observed ∧
      (ps.foldl (pushChainInfo el ev cid) s).inDoc = s.inDoc ∧
      (ps.foldl (pushChainInfo el ev cid) s).visibleNow = s.visibleNow ∧
      (ps.foldl (pushChainInfo el ev cid) s).mutActive = s.mutActive ∧
      (ps.foldl (pushChainInfo el ev cid) s).nextId = s.nextId := by
  induction ps with
  | nil => intro s; simp
  | cons p t ih =>
      intro s
      have h := ih (pushChainInfo el ev cid s p)
      simpa [pushChainInfo] using h

/-- C4: creating a chain with an id that is already live throws before any
mutation of the chain table or the registry, and the existing chain keeps
dispatching its stored stage list; creating a chain with a fresh id stores
the stage list and physically attaches exactly one new listener — the
executor proxy — for the element/event pair. -/
theorem createEventChain_duplicate_rejected_fresh_installed {D : Type}
    (env : Nat → Stage D) (st1 st2 : MState) (X : String)
    (el1 el2 : Nat) (ev1 ev2 : String) (hs1 hs2 : List Nat)
    (stages : List Nat) (ev : Nat)
    (h1 : assocGet st1.chainedHandlers X = some stages)
    (h2 : assocGet st2.chainedHandlers X = none)
    (h3 : (el2, ev2, LId.proxy st2.nextId) ∉ st2.attached) :
    createEventChain st1 X el1 ev1 hs1 =
      Except.error ("Chain with ID " ++ X ++ " already exists") ∧
    execChain env st1 X ev = runChain (stages.map env) ev ∧
    (∃ st', createEventChain st2 X el2 ev2 hs2 = Except.ok st' ∧
      st'.attached = (el2, ev2, LId.proxy st2.nextId) :: st2.attached ∧
      assocGet st'.chainedHandlers X = some hs2) := by
  refine ⟨?_, ?_, ?_⟩
  · unfold createEventChain
    rw [h1]
    rfl
  · unfold execChain
    rw [h1]
    rfl
  · unfold createEventChain
    rw [h2]
    refine ⟨_, rfl, ?_, ?_⟩
    · have hfold := (pushChainInfo_fold_fields el2 ev2 X hs2.enum
        ((addListener { st2 with
            chainedHandlers := assocSet st2.chainedHandlers X hs2 } el2 ev2 none).1)).1
      rw [hfold]
      simp [addListener, setAdd_of_not_mem h3]
    · have hfold := (pushChainInfo_fold_fields el2 ev2 X hs2.enum
        ((addListener { st2 with
            chainedHandlers := assocSet st2.chainedHandlers X hs2 } el2 ev2 none).1)).2.1
      rw [hfold]
      simp [addListener, assocGet_set_self]

theorem createEventChain_duplicate_witness :
    createEventChain chainSt "c" 1 "click" [7] =
      Except.error ("Chain with ID " ++ "c" ++ " already exists") ∧
    execChain (fun n => stageOkC n) chainSt "c" 3 =
      runChain ([100].map (fun n => stageOkC n)) 3 ∧
    (∃ st', createEventChain (initSt [0]) "c" 0 "click" [8] = Except.ok st' ∧
      st'.attached = (0, "click", LId.proxy 0) :: (initSt [0]).attached ∧
      assocGet st'.chainedHandlers "c" = some [8]) :=
  createEventChain_duplicate_rejected_fresh_installed (fun n => stageOkC n)
    chainSt (initSt [0]) "c" 1 0 "click" "click" [7] [8] [100] 3
    (by decide) (by decide) (by decide)

end CreateChainClaim

section AddToChainClaim

/-- C8 counterexample: with chain "c" holding the single stage `10`,
`addToChain` at position 5 succeeds but does not place the handler at index
5 — `splice` clamps the position to the array length, so the handler lands
at index 1. -/
theorem addToChain_position_clamped :
    ∃ st', addToChain chainSt10 "c" 20 (some 5) = Except.ok st' ∧
      assocGet st'.chainedHandlers "c" = some [10, 20] ∧
      [10, 20].get? 5 ≠ some 20 := by
  refine ⟨_, rfl, by decide, by decide⟩

/-- C8 (amended): `addToChain` throws exactly on an unknown chain id, before
any mutation; otherwise the position is normalized as by
`Array.prototype.splice` — omitted appends, an in-range nonnegative position
inserts at that index shifting later stages back, a position beyond the
length appends at the end, and a negative position counts from the end — and
the next trigger of the chain executes the updated stage list. -/
theorem addToChain_unknown_rejected_insert_normalized {D : Type}
    (env : Nat → Stage D) (stN stP : MState) (cid : String) (h : Nat)
    (posN : Option Int) (hs : List Nat) (ev : Nat)
    (hN : assocGet stN.chainedHandlers cid = none)
    (hP : assocGet stP.chainedHandlers cid = some hs) :
    addToChain stN cid h posN =
      Except.error ("Chain with ID " ++ cid ++ " does not exist") ∧
    (∀ p : Int, 0 ≤ p → p.toNat ≤ hs.length →
      ∃ st', addToChain stP cid h (some p) = Except.ok st' ∧
        assocGet st'.chainedHandlers cid =
          some (hs.take p.toNat ++ h :: hs.drop p.toNat)) ∧
    (∀ p : Int, 0 ≤ p → hs.length ≤ p.toNat →
      ∃ st', addToChain stP cid h (some p) = Except.ok st' ∧
        assocGet st'.chainedHandlers cid = some (hs ++ [h])) ∧
    (∀ p : Int, p < 0 →
      ∃ st', addToChain stP cid h (some p) = Except.ok st' ∧
        assocGet st'.chainedHandlers cid =
          some (hs.take ((hs.length : Int) + p).toNat ++
                h :: hs.drop ((hs.length : Int) + p).toNat)) ∧
    (∃ st', addToChain stP cid h none = Except.ok st' ∧
      assocGet st'.chainedHandlers cid = some (hs ++ [h]) ∧
      execChain env st' cid ev = runChain ((hs ++ [h]).map env) ev) := by
  refine ⟨?_, ?_, ?_, ?_, ?_⟩
  · unfold addToChain
    rw [hN]
  · intro p hp0 hple
    unfold addToChain
    rw [hP]
    refine ⟨_, rfl, ?_⟩
    rw [assocGet_set_self]
    have hidx : spliceIndex hs.length p = p.toNat := by
      unfold spliceIndex
      rw [if_neg (by omega)]
      exact Nat.min_eq_left hple
    show some (hs.take (spliceIndex hs.length p) ++ h :: hs.drop (spliceIndex hs.length p)) = _
    rw [hidx]
  · intro p hp0 hge
    unfold addToChain
    rw [hP]
    refine ⟨_, rfl, ?_⟩
    rw [assocGet_set_self]
    have hidx : spliceIndex hs.length p = hs.length := by
      unfold spliceIndex
      rw [if_neg (by omega)]
      exact Nat.min_eq_right hge
    show some (hs.take (spliceIndex hs.length p) ++ h :: hs.drop (spliceIndex hs.length p)) = _
    rw [hidx, List.take_length, List.drop_length]
  · intro p hpneg
    unfold addToChain
    rw [hP]
    refine ⟨_, rfl, ?_⟩
    rw [assocGet_set_self]
    have hidx : spliceIndex hs.length p = ((hs.length : Int) + p).toNat := by
      unfold spliceIndex
      rw [if_pos hpneg]
      rfl
    show some (hs.take (spliceIndex hs.length p) ++ h :: hs.drop (spliceIndex hs.length p)) = _
    rw [hidx]
  · unfold addToChain
    rw [hP]
    refine ⟨_, rfl, ?_, ?_⟩
    · rw [assocGet_set_self]
    · unfold execChain
      rw [assocGet_set_self]
      rfl

theorem addToChain_normalized_witness :
    addToChain (initSt []) "c" 20 (some 1) =
      Except.error ("Chain with ID " ++ "c" ++ " does not exist") ∧
    (∃ st', addToChain chainSt10 "c" 20 (some 1) = Except.ok st' ∧
      assocGet st'.chainedHandlers "c" = some [10, 20]) ∧
    (∃ st', addToChain chainSt10 "c" 20 (some 7) = Except.ok st' ∧
      assocGet st'.chainedHandlers "c" = some [10, 20]) ∧
    (∃ st', addToChain chainSt10 "c" 20 (some (-1)) = Except.ok st' ∧
      assocGet st'.chainedHandlers "c" = some [20, 10]) ∧
    (∃ st', addToChain chainSt10 "c" 20 none = Except.ok st' ∧
      assocGet st'.chainedHandlers "c" = some [10, 20] ∧
      execChain (fun n => stageOkC n) st' "c" 3 =
        runChain (([10] ++ [20]).map (fun n => stageOkC n)) 3) := by
  have h := addToChain_unknown_rejected_insert_normalized (fun n => stageOkC n)
    (initSt []) chainSt10 "c" 20 (some 1) [10] 3 rfl (by decide)
  obtain ⟨w1, w2, w3, w4, w5⟩ := h
  obtain ⟨s2, he2, hg2⟩ := w2 1 (by decide) (by decide)
  obtain ⟨s3, he3, hg3⟩ := w3 7 (by decide) (by decide)
  obtain ⟨s4, he4, hg4⟩ := w4 (-1) (by decide)
  refine ⟨w1, ⟨s2, he2, ?_⟩, ⟨s3, he3, ?_⟩, ⟨s4, he4, ?_⟩, ?_⟩
  · rw [hg2]; rfl
  · rw [hg3]; rfl
  · rw [hg4]; rfl
  · obtain ⟨s5, he5, hg5, hx5⟩ := w5
    exact ⟨s5, he5, by rw [hg5]; rfl, hx5⟩

end AddToChainClaim

section RemoveListenerClaim

theorem mstate_eq (a b : MState)
    (h1 : a.listenerMap = b.listenerMap) (h2 : a.chainedHandlers = b.chainedHandlers)
    (h3 : a.attached = b.attached) (h4 : a.marker = b.marker)
    (h5 : a.observed = b.observed) (h6 : a.visibleNow = b.visibleNow)
    (h7 : a.inDoc = b.inDoc) (h8 : a.mutActive = b.mutActive)
    (h9 : a.nextId = b.nextId) : a = b := by
  cases a
  cases b
  simp_all

theorem removeListener_listenerMap (st : MState) (el : Nat) (ev : String) (lid : LId) :
    (removeListener st el ev lid).listenerMap =
      (if (((assocGet st.listenerMap el).getD []).filter
            (fun info => info.listener ≠ lid)).length > 0
       then assocSet st.listenerMap el
              (((assocGet st.listenerMap el).getD []).filter
                (fun info => info.listener ≠ lid))
       else assocDelete st.listenerMap el) := rfl

theorem removeListener_attached (st : MState) (el : Nat) (ev : String) (lid : LId) :
    (removeListener st el ev lid).attached = setRemove st.attached (el, ev, lid) := rfl

theorem removeListener_observed (st : MState) (el : Nat) (ev : String) (lid : LId) :
    (removeListener st el ev lid).observed = setRemove st.observed el := rfl

theorem removeListener_marker (st : MState) (el : Nat) (ev : String) (lid : LId) :
    (removeListener st el ev lid).marker = st.marker := rfl

theorem removeListener_chainedHandlers (st : MState) (el : Nat) (ev : String) (lid : LId) :
    (removeListener st el ev lid).chainedHandlers = st.chainedHandlers := rfl

theorem removeListener_inDoc (st : MState) (el : Nat) (ev : String) (lid : LId) :
    (removeListener st el ev lid).inDoc = st.inDoc := rfl

theorem removeListener_visibleNow (st : MState) (el : Nat) (ev : String) (lid : LId) :
    (removeListener st el ev lid).visibleNow = st.visibleNow := rfl

theorem removeListener_mutActive (st : MState) (el : Nat) (ev : String) (lid : LId) :
    (removeListener st el ev lid).mutActive = st.mutActive := rfl

theorem removeListener_nextId (st : MState) (el : Nat) (ev : String) (lid : LId) :
    (removeListener st el ev lid).nextId = st.nextId := rfl

theorem removeListener_map_idem (st : MState) (el : Nat) (ev : String) (lid : LId) :
    (removeListener (removeListener st el ev lid) el ev lid).listenerMap =
      (removeListener st el ev lid).listenerMap := by
  cases hget : assocGet st.listenerMap el with
  | none =>
      have hmap : (removeListener st el ev lid).listenerMap = st.listenerMap := by
        rw [removeListener_listenerMap, hget]
        simpa using assocDelete_of_get_none st.listenerMap el hget
      rw [removeListener_listenerMap, hmap, hget]
      simpa using assocDelete_of_get_none st.listenerMap el hget
  | some l =>
      by_cases hupd : (l.filter (fun info => info.listener ≠ lid)).length > 0
      · have hmap : (removeListener st el ev lid).listenerMap =
            assocSet st.listenerMap el (l.filter (fun info => info.listener ≠ lid)) := by
          rw [removeListener_listenerMap, hget]
          simp only [Option.getD_some]
          rw [if_pos hupd]
        have hfil : (l.filter (fun info => info.listener ≠ lid)).filter
            (fun info => info.listener ≠ lid) =
            l.filter (fun info => info.listener ≠ lid) := by
          apply List.filter_eq_self.mpr
          intro a ha
          exact (List.mem_filter.mp ha).2
        rw [removeListener_listenerMap, hmap, assocGet_set_self]
        simp only [Option.getD_some]
        rw [hfil, if_pos hupd]
        exact assocSet_get_self _ _ _ (assocGet_set_self st.listenerMap el _)
      · have hmap : (removeListener st el ev lid).listenerMap =
            assocDelete st.listenerMap el := by
          rw [removeListener_listenerMap, hget]
          simp only [Option.getD_some]
          rw [if_neg hupd]
        rw [removeListener_listenerMap, hmap, assocGet_delete_self]
        simpa using assocDelete_of_get_none _ el (assocGet_delete_self st.listenerMap el)

/-- C7 counterexample: with a single registration (listener `proxy 0`) on
element 0, removing a listener that matches no registration is not free of
side effects — the element gets unobserved, changing observer state. -/
theorem removeListener_unobserves_without_match :
    (∀ i ∈ (assocGet oneRegSt.listenerMap 0).getD [], i.listener ≠ LId.proxy 99) ∧
    (removeListener oneRegSt 0 "click" (LId.proxy 99)).observed ≠
      oneRegSt.observed := by
  exact ⟨by decide, by decide⟩

/-- C7 (amended): removeListener is idempotent — repeating the same removal
changes nothing the second time, with no error and no second physical
detach; and a call whose listener identity matches no registration of the
element (with the triple not attached and the element's entry not the empty
list) leaves the registry, the attachment set and the marker unchanged, but
still unconditionally unobserves the element. -/
theorem removeListener_idempotent_and_unobserve (st : MState) (el : Nat)
    (ev : String) (lid : LId) :
    removeListener (removeListener st el ev lid) el ev lid =
      removeListener st el ev lid ∧
    (assocGet st.listenerMap el ≠ some [] →
      (∀ i ∈ (assocGet st.listenerMap el).getD [], i.listener ≠ lid) →
      (el, ev, lid) ∉ st.attached →
      removeListener st el ev lid =
        { st with observed := setRemove st.observed el }) ∧
    (∀ l', assocGet (removeListener st el ev lid).listenerMap el = some l' →
      ∀ x ∈ l', x.listener ≠ lid) ∧
    (∀ l, assocGet st.listenerMap el = some l →
      (l.filter (fun info => info.listener ≠ lid) = [] →
        assocGet (removeListener st el ev lid).listenerMap el = none) ∧
      (l.filter (fun info => info.listener ≠ lid) ≠ [] →
        assocGet (removeListener st el ev lid).listenerMap el =
          some (l.filter (fun info => info.listener ≠ lid)))) := by
  refine ⟨?_, ?_, ?_, ?_⟩
  · apply mstate_eq
    · exact removeListener_map_idem st el ev lid
    · rfl
    · rw [removeListener_attached, removeListener_attached]
      exact setRemove_setRemove _ _
    · rfl
    · rw [removeListener_observed, removeListener_observed]
      exact setRemove_setRemove _ _
    · rfl
    · rfl
    · rfl
    · rfl
  · intro hne hnomatch hdom
    apply mstate_eq
    · rw [removeListener_listenerMap]
      cases hget : assocGet st.listenerMap el with
      | none =>
          simpa using assocDelete_of_get_none st.listenerMap el hget
      | some l =>
          rw [hget] at hnomatch hne
          simp only [Option.getD_some] at hnomatch
          have hl : l.filter (fun info => info.listener ≠ lid) = l := by
            apply List.filter_eq_self.mpr
            intro a ha
            simpa using hnomatch a ha
          have hlen : (l.filter (fun info => info.listener ≠ lid)).length > 0 := by
            rw [hl]
            cases l with
            | nil => exact absurd rfl hne
            | cons x xs => simp
          simp only [Option.getD_some]
          rw [if_pos hlen, hl]
          exact assocSet_get_self _ _ _ hget
    · rfl
    · rw [removeListener_attached]
      exact setRemove_eq_of_not_mem hdom
    · rfl
    · rfl
    · rfl
    · rfl
    · rfl
    · rfl
  · intro l' hl' x hx
    rw [removeListener_listenerMap] at hl'
    by_cases hupd : (((assocGet st.listenerMap el).getD []).filter
        (fun info => info.listener ≠ lid)).length > 0
    · rw [if_pos hupd, assocGet_set_self] at hl'
      have hx2 : x ∈ ((assocGet st.listenerMap el).getD []).filter
          (fun info => info.listener ≠ lid) := by
        rw [show ((assocGet st.listenerMap el).getD []).filter
            (fun info => info.listener ≠ lid) = l' from by simpa using hl']
        exact hx
      have := (List.mem_filter.mp hx2).2
      simpa using this
    · rw [if_neg hupd, assocGet_delete_self] at hl'
      exact absurd hl' (by simp)
  · intro l hget
    constructor
    · intro hemp
      rw [removeListener_listenerMap, hget]
      simp only [Option.getD_some, hemp]
      rw [if_neg (by simp)]
      exact assocGet_delete_self _ _
    · intro hne2
      rw [removeListener_listenerMap, hget]
      simp only [Option.getD_some]
      rw [if_pos (by
        cases hfl : l.filter (fun info => info.listener ≠ lid) with
        | nil => exact absurd hfl hne2
        | cons y ys => simp)]
      exact assocGet_set_self _ _ _

theorem removeListener_idempotent_witness :
    removeListener (removeListener oneRegSt 0 "click" (LId.proxy 99)) 0 "click"
        (LId.proxy 99) =
      removeListener oneRegSt 0 "click" (LId.proxy 99) ∧
    removeListener oneRegSt 0 "click" (LId.proxy 99) =
      { oneRegSt with observed := setRemove oneRegSt.observed 0 } ∧
    assocGet (removeListener oneRegSt 0 "click" (LId.proxy 0)).listenerMap 0 =
      none ∧
    (∀ l', assocGet (removeListener oneRegSt 0 "click"
        (LId.proxy 0)).listenerMap 0 = some l' →
      ∀ x ∈ l', x.listener ≠ LId.proxy 0) := by
  have h99 := removeListener_idempotent_and_unobserve oneRegSt 0 "click" (LId.proxy 99)
  have h0 := removeListener_idempotent_and_unobserve oneRegSt 0 "click" (LId.proxy 0)
  refine ⟨h99.1, h99.2.1 (by decide) (by decide) (by decide), ?_, h0.2.2.1⟩
  exact (h0.2.2.2 [regInfo0] (by decide)).1 (by decide)

end RemoveListenerClaim

section VisibilityClaim

/-- C1 counterexample: immediately after registering a predicate-free
listener on an element for which no visibility notification has ever
arrived, the listener is already physically attached although the element is
not visible per the gate — `addListener` attaches without consulting
visibility, so the claimed invariant fails at that settled state. -/
theorem registration_attaches_before_visibility : ¬ attachIffGate oneRegSt := by
  unfold attachIffGate
  decide

/-- Processing a visibility notification for an element whose registration
list is the single `info` amounts to one `intersectStep` on that entry. -/
theorem handleIntersectOne_single (stV : MState) (elV : Nat)
    (info : EventListenerInfo) (b : Bool)
    (hone : assocGet stV.listenerMap elV = some [info]) :
    handleIntersectOne stV elV b =
      intersectStep elV b
        { stV with visibleNow := if b then setAdd stV.visibleNow elV
                                 else setRemove stV.visibleNow elV } info := by
  simp only [handleIntersectOne]
  rw [hone]
  simp [List.foldl]

/-- C1 (amended): at registration, attachment is decided by the predicate
alone — the new registration is physically attached iff the predicate is
absent or currently true, visibility not consulted; once a visibility
notification for an element carrying exactly one registration is processed
(from a state where the marker attribute agrees with attachment), the
registration is attached iff its predicate is absent-or-true and the element
was reported intersecting, with the marker present exactly when attached. -/
theorem attach_by_condition_then_visibility (st stV : MState) (el elV : Nat)
    (evT : String) (cond : Option Bool) (info : EventListenerInfo) (vis : Bool)
    (hfresh : (el, evT, LId.proxy st.nextId) ∉ st.attached)
    (hone : assocGet stV.listenerMap elV = some [info])
    (hcons : elV ∈ stV.marker ↔ (elV, info.event, info.listener) ∈ stV.attached) :
    (((el, evT, LId.proxy st.nextId) ∈ (addListener st el evT cond).1.attached) ↔
      cond.getD true = true) ∧
    (((elV, info.event, info.listener) ∈ (handleIntersectOne stV elV vis).attached) ↔
      (vis = true ∧ info.condition.getD true = true)) ∧
    ((elV ∈ (handleIntersectOne stV elV vis).marker) ↔
      ((elV, info.event, info.listener) ∈ (handleIntersectOne stV elV vis).attached)) := by
  have hnot : elV ∉ stV.marker → (elV, info.event, info.listener) ∉ stV.attached :=
    fun hm hin => hm (hcons.mpr hin)
  refine ⟨?_, ?_, ?_⟩
  · cases hc : cond.getD true
    · have hatt : (addListener st el evT cond).1.attached = st.attached := by
        simp [addListener, hc]
      rw [hatt]
      simp [hfresh, hc]
    · have hatt : (addListener st el evT cond).1.attached =
          setAdd st.attached (el, evT, LId.proxy st.nextId) := by
        simp [addListener, hc]
      rw [hatt]
      simp [mem_setAdd]
  · rw [handleIntersectOne_single stV elV info vis hone]
    by_cases hm : elV ∈ stV.marker
    · have hin := hcons.mp hm
      cases vis <;> cases hcv : info.condition.getD true <;>
        simp [intersectStep, hm, hcv, mem_setAdd, mem_setRemove, hin]
    · have hni := hnot hm
      cases vis <;> cases hcv : info.condition.getD true <;>
        simp [intersectStep, hm, hcv, mem_setAdd, mem_setRemove, hni]
  · rw [handleIntersectOne_single stV elV info vis hone]
    by_cases hm : elV ∈ stV.marker
    · have hin := hcons.mp hm
      cases vis <;> cases hcv : info.condition.getD true <;>
        simp [intersectStep, hm, hcv, mem_setAdd, mem_setRemove, hin]
    · have hni := hnot hm
      cases vis <;> cases hcv : info.condition.getD true <;>
        simp [intersectStep, hm, hcv, mem_setAdd, mem_setRemove, hni]

theorem attach_by_condition_then_visibility_witness :
    (((5, "over", LId.proxy 0) ∈
        (addListener (initSt []) 5 "over" (some false)).1.attached) ↔
      (some false).getD true = true) ∧
    (((0, regInfo0.event, regInfo0.listener) ∈
        (handleIntersectOne oneRegSt 0 false).attached) ↔
      (false = true ∧ regInfo0.condition.getD true = true)) ∧
    ((0 ∈ (handleIntersectOne oneRegSt 0 false).marker) ↔
      ((0, regInfo0.event, regInfo0.listener) ∈
        (handleIntersectOne oneRegSt 0 false).attached)) :=
  attach_by_condition_then_visibility (initSt []) oneRegSt 5 0 "over"
    (some false) regInfo0 false (by decide) (by decide) (by decide)

end VisibilityClaim

section RemovalSweepClaim

/-- Sweeping a list of registrations through `removeListener` never touches
the marker, the chain table, the document, the visibility bookkeeping, the
observer-connected flag or the id allocator. -/
theorem foldRemove_fields :
    ∀ (items : List EventListenerInfo) (s : MState),
      ((items.foldl (fun s2 i => removeListener s2 i.element i.event i.listener) s).marker
        = s.marker) ∧
      ((items.foldl (fun s2 i => removeListener s2 i.element i.event i.listener) s).chainedHandlers
        = s.chainedHandlers) ∧
      ((items.foldl (fun s2 i => removeListener s2 i.element i.event i.listener) s).inDoc
        = s.inDoc) ∧
      ((items.foldl (fun s2 i => removeListener s2 i.element i.event i.listener) s).visibleNow
        = s.visibleNow) ∧
      ((items.foldl (fun s2 i => removeListener s2 i.element i.event i.listener) s).mutActive
        = s.mutActive) ∧
      ((items.foldl (fun s2 i => removeListener s2 i.element i.event i.listener) s).nextId
        = s.nextId) := by
  intro items
  induction items with
  | nil => intro s; exact ⟨rfl, rfl, rfl, rfl, rfl, rfl⟩
  | cons i t ih =>
      intro s
      simpa using ih (removeListener s i.element i.event i.listener)

/-- Sweeping only removes physical attachments: the attachment set shrinks,
and every swept registration's triple is detached at the end. -/
theorem foldRemove_attached :
    ∀ (items : List EventListenerInfo) (s : MState),
      (∀ t3, t3 ∈ (items.foldl
          (fun s2 i => removeListener s2 i.element i.event i.listener) s).attached →
        t3 ∈ s.attached) ∧
      (∀ i ∈ items, (i.element, i.event, i.listener) ∉
        (items.foldl (fun s2 i => removeListener s2 i.element i.event i.listener) s).attached) := by
  intro items
  induction items with
  | nil => intro s; exact ⟨fun _ h => h, by simp⟩
  | cons i t ih =>
      intro s
      have hsub := (ih (removeListener s i.element i.event i.listener)).1
      constructor
      · intro t3 h3
        have h4 := hsub t3 h3
        rw [removeListener_attached] at h4
        exact (mem_setRemove.mp h4).1
      · intro j hj
        rcases List.mem_cons.mp hj with he | ht
        · subst he
          intro hmem
          have h4 := hsub _ hmem
          rw [removeListener_attached] at h4
          exact (mem_setRemove.mp h4).2 rfl
        · exact (ih (removeListener s i.element i.event i.listener)).2 j ht

/-- Sweeping the captured registration list of `root` deletes `root`'s
registry entry and touches no other key: the resulting map is exactly the
original without `root`. Requires that the swept items target `root` and
that `root`'s current entry (when present) is nonempty with every listener
covered by the items. -/
theorem foldRemove_map (root : Nat) :
    ∀ (items : List EventListenerInfo) (s : MState),
      (∀ i ∈ items, i.element = root) →
      (assocGet s.listenerMap root = none ∨
        ∃ l, assocGet s.listenerMap root = some l ∧ l ≠ [] ∧
          ∀ x ∈ l, ∃ i ∈ items, x.listener = i.listener) →
      (items.foldl (fun s2 i => removeListener s2 i.element i.event i.listener) s).listenerMap =
        assocDelete s.listenerMap root := by
  intro items
  induction items with
  | nil =>
      intro s _ hcov
      rcases hcov with hnone | ⟨l, hl, hne, hcov⟩
      · simp [assocDelete_of_get_none _ _ hnone]
      · cases l with
        | nil => exact absurd rfl hne
        | cons x xs => exact absurd (hcov x (by simp)) (by simp)
  | cons i t ih =>
      intro s helem hcov
      have hieq : i.element = root := helem i (by simp)
      have helemt : ∀ j ∈ t, j.element = root := fun j hj => helem j (by simp [hj])
      rw [List.foldl_cons, hieq]
      rcases hcov with hnone | ⟨l, hl, hne, hcov⟩
      · have hmap : (removeListener s root i.event i.listener).listenerMap =
            s.listenerMap := by
          rw [removeListener_listenerMap, hnone]
          simpa using assocDelete_of_get_none _ _ hnone
        have hrec := ih (removeListener s root i.event i.listener) helemt
          (Or.inl (by rw [hmap]; exact hnone))
        rw [hrec, hmap]
      · by_cases hupd : (l.filter (fun info => info.listener ≠ i.listener)).length > 0
        · have hmap : (removeListener s root i.event i.listener).listenerMap =
              assocSet s.listenerMap root
                (l.filter (fun info => info.listener ≠ i.listener)) := by
            rw [removeListener_listenerMap, hl]
            simp only [Option.getD_some]
            rw [if_pos hupd]
          have hcov2 : ∀ x ∈ l.filter (fun info => info.listener ≠ i.listener),
              ∃ j ∈ t, x.listener = j.listener := by
            intro x hx
            have hx1 := List.mem_filter.mp hx
            obtain ⟨j, hj, hxe⟩ := hcov x hx1.1
            rcases List.mem_cons.mp hj with hji | hjt
            · exfalso
              have : x.listener ≠ i.listener := by simpa using hx1.2
              exact this (hji ▸ hxe)
            · exact ⟨j, hjt, hxe⟩
          have hne2 : l.filter (fun info => info.listener ≠ i.listener) ≠ [] := by
            intro hemp
            rw [hemp] at hupd
            simp at hupd
          have hrec := ih (removeListener s root i.event i.listener) helemt
            (Or.inr ⟨l.filter (fun info => info.listener ≠ i.listener),
              by rw [hmap]; exact assocGet_set_self _ _ _, hne2, hcov2⟩)
          rw [hrec, hmap, assocDelete_assocSet]
        · have hmap : (removeListener s root i.event i.listener).listenerMap =
              assocDelete s.listenerMap root := by
            rw [removeListener_listenerMap, hl]
            simp only [Option.getD_some]
            rw [if_neg hupd]
          have hrec := ih (removeListener s root i.event i.listener) helemt
            (Or.inl (by rw [hmap]; exact assocGet_delete_self _ _))
          rw [hrec, hmap]
          exact assocDelete_of_get_none _ _ (assocGet_delete_self _ _)

/-- C5 counterexample: element 0 carries one attached registration and the
marker; removing it from the document runs the sweep (the registry entry is
deleted) yet the marker attribute survives, contradicting "its marker
attribute cleared". -/
theorem removal_sweep_keeps_marker :
    0 ∈ (removeSubtree oneRegSt 0 []).marker ∧
    assocGet (removeSubtree oneRegSt 0 []).listenerMap 0 = none := by
  exact ⟨by decide, by decide⟩

/-- C5 (amended): when a subtree is removed from the live document the
sweeper processes exactly the nodes of the mutation batch — the subtree
root, not its descendants — and for the root: every registration is
physically detached and the registry entry deleted, while the marker
attribute is left in place and every other node's registry entry (including
the removed descendants') is untouched; sweeping the node again, or a batch
naming it twice, is a no-op without error. -/
theorem removal_sweep_detaches_root_only (st : MState) (root : Nat)
    (descs : List Nat) (infos : List EventListenerInfo)
    (hmut : st.mutActive = true)
    (hentry : assocGet st.listenerMap root = some infos)
    (hne : infos ≠ [])
    (helem : ∀ i ∈ infos, i.element = root) :
    assocGet (removeSubtree st root descs).listenerMap root = none ∧
    (∀ i ∈ infos,
      (root, i.event, i.listener) ∉ (removeSubtree st root descs).attached) ∧
    (removeSubtree st root descs).marker = st.marker ∧
    (∀ d, d ≠ root →
      assocGet (removeSubtree st root descs).listenerMap d =
        assocGet st.listenerMap d) ∧
    mutationRemoved (removeSubtree st root descs) [root] =
      removeSubtree st root descs ∧
    mutationRemoved (docRemove st root descs) [root, root] =
      removeSubtree st root descs := by
  have hm2 : (docRemove st root descs).mutActive = true := hmut
  have hentry2 : assocGet (docRemove st root descs).listenerMap root = some infos :=
    hentry
  have hstep : removeSubtree st root descs =
      infos.foldl (fun s2 i => removeListener s2 i.element i.event i.listener)
        (docRemove st root descs) := by
    show (if (docRemove st root descs).mutActive = true
          then mutationRemoved (docRemove st root descs) [root]
          else docRemove st root descs) = _
    rw [if_pos hm2]
    show mutationRemovedNode (docRemove st root descs) root = _
    unfold mutationRemovedNode
    rw [hentry2]
  have hmap := foldRemove_map root infos (docRemove st root descs)
    helem (Or.inr ⟨infos, hentry, hne, fun x hx => ⟨x, hx, rfl⟩⟩)
  have hgone : assocGet (removeSubtree st root descs).listenerMap root = none := by
    rw [hstep, hmap]
    exact assocGet_delete_self _ _
  refine ⟨hgone, ?_, ?_, ?_, ?_, ?_⟩
  · intro i hi
    have h2 := (foldRemove_attached infos (docRemove st root descs)).2 i hi
    rw [helem i hi] at h2
    rw [hstep]
    exact h2
  · rw [hstep]
    exact (foldRemove_fields infos _).1
  · intro d hd
    rw [hstep, hmap]
    exact assocGet_delete_ne _ _ _ hd
  · show mutationRemovedNode (removeSubtree st root descs) root = _
    unfold mutationRemovedNode
    rw [hgone]
  · have h1 : mutationRemoved (docRemove st root descs) [root] =
        removeSubtree st root descs := by
      rw [hstep]
      show mutationRemovedNode (docRemove st root descs) root = _
      unfold mutationRemovedNode
      rw [hentry2]
    have h2 : mutationRemoved (docRemove st root descs) [root, root] =
        mutationRemoved (mutationRemoved (docRemove st root descs) [root]) [root] := rfl
    rw [h2, h1]
    show mutationRemovedNode (removeSubtree st root descs) root = _
    unfold mutationRemovedNode
    rw [hgone]

theorem removal_sweep_witness :
    assocGet (removeSubtree oneRegSt 0 [7]).listenerMap 0 = none ∧
    (∀ i ∈ [regInfo0],
      (0, i.event, i.listener) ∉ (removeSubtree oneRegSt 0 [7]).attached) ∧
    (removeSubtree oneRegSt 0 [7]).marker = oneRegSt.marker ∧
    (∀ d, d ≠ 0 →
      assocGet (removeSubtree oneRegSt 0 [7]).listenerMap d =
        assocGet oneRegSt.listenerMap d) ∧
    mutationRemoved (removeSubtree oneRegSt 0 [7]) [0] =
      removeSubtree oneRegSt 0 [7] ∧
    mutationRemoved (docRemove oneRegSt 0 [7]) [0, 0] =
      removeSubtree oneRegSt 0 [7] :=
  removal_sweep_detaches_root_only oneRegSt 0 [7] [regInfo0]
    (by decide) (by decide) (by decide) (by decide)

end RemovalSweepClaim

section RemoveChainClaim

theorem removeListener_rawTagged (s : MState) (el : Nat) (ev : String) (lid : LId)
    (h : RawTagged s) : RawTagged (removeListener s el ev lid) := by
  intro p hp i hi hsome
  rw [removeListener_listenerMap] at hp
  by_cases hupd : (((assocGet s.listenerMap el).getD []).filter
      (fun info => info.listener ≠ lid)).length > 0
  · rw [if_pos hupd] at hp
    rcases mem_assocSet _ _ _ _ hp with he | hm
    · subst he
      simp only at hi
      have hi2 := List.mem_filter.mp hi
      cases hget : assocGet s.listenerMap el with
      | none =>
          rw [hget] at hi2
          simp at hi2
      | some l =>
          rw [hget] at hi2
          simp only [Option.getD_some] at hi2
          exact h (el, l) (assocGet_mem _ _ _ hget) i hi2.1 hsome
    · exact h p hm i hi hsome
  · rw [if_neg hupd] at hp
    exact h p (List.mem_filter.mp hp).1 i hi hsome

/-- Sweeping items whose listeners are all raw stage handlers keeps every
proxy-listener attachment in place, preserves `RawTagged`, and leaves the
chain table alone. -/
theorem foldRemoveRaw_proxy :
    ∀ (items : List EventListenerInfo) (s : MState),
      (∀ i ∈ items, i.listener.isRawId = true) →
      RawTagged s →
      ((∀ e2 v2 n, (e2, v2, LId.proxy n) ∈ s.attached →
        (e2, v2, LId.proxy n) ∈
          (items.foldl (fun s2 i => removeListener s2 i.element i.event i.listener) s).attached) ∧
      RawTagged (items.foldl (fun s2 i => removeListener s2 i.element i.event i.listener) s) ∧
      (items.foldl (fun s2 i => removeListener s2 i.element i.event i.listener) s).chainedHandlers
        = s.chainedHandlers) := by
  intro items
  induction items with
  | nil => intro s _ hraw; exact ⟨fun _ _ _ h => h, hraw, rfl⟩
  | cons i t ih =>
      intro s hitems hraw
      have hn0 := hitems i (by simp)
      have hrec := ih (removeListener s i.element i.event i.listener)
        (fun j hj => hitems j (by simp [hj]))
        (removeListener_rawTagged s i.element i.event i.listener hraw)
      refine ⟨?_, hrec.2.1, hrec.2.2.trans rfl⟩
      intro e2 v2 n hmem
      apply hrec.1
      rw [removeListener_attached]
      apply mem_setRemove.mpr
      refine ⟨hmem, ?_⟩
      intro heq
      have hl : i.listener = LId.proxy n := by
        have h3 := congrArg (fun t => t.2.2) heq
        simpa using h3.symm
      rw [hl] at hn0
      simp [LId.isRawId] at hn0

theorem removeChainInfosAt_proxy (cid : String) (el : Nat) (s : MState)
    (hraw : RawTagged s) :
    (∀ e2 v2 n, (e2, v2, LId.proxy n) ∈ s.attached →
      (e2, v2, LId.proxy n) ∈ (removeChainInfosAt cid s el).attached) ∧
    RawTagged (removeChainInfosAt cid s el) ∧
    (removeChainInfosAt cid s el).chainedHandlers = s.chainedHandlers := by
  unfold removeChainInfosAt
  cases hget : assocGet s.listenerMap el with
  | none => exact ⟨fun _ _ _ h => h, hraw, rfl⟩
  | some listeners =>
      apply foldRemoveRaw_proxy
      · intro i hi
        have hi2 := List.mem_filter.mp hi
        have hcid : i.chainId = some cid := by simpa using hi2.2
        exact hraw (el, listeners) (assocGet_mem _ _ _ hget) i hi2.1 (by simp [hcid])
      · exact hraw

theorem foldRemoveChain_proxy (cid : String) :
    ∀ (els : List Nat) (s : MState),
      RawTagged s →
      ((∀ e2 v2 n, (e2, v2, LId.proxy n) ∈ s.attached →
        (e2, v2, LId.proxy n) ∈ (els.foldl (removeChainInfosAt cid) s).attached) ∧
      RawTagged (els.foldl (removeChainInfosAt cid) s) ∧
      (els.foldl (removeChainInfosAt cid) s).chainedHandlers = s.chainedHandlers) := by
  intro els
  induction els with
  | nil => intro s hraw; exact ⟨fun _ _ _ h => h, hraw, rfl⟩
  | cons el t ih =>
      intro s hraw
      have hone := removeChainInfosAt_proxy cid el s hraw
      have hrec := ih (removeChainInfosAt cid s el) hone.2.1
      exact ⟨fun e2 v2 n h => hrec.1 e2 v2 n (hone.1 e2 v2 n h),
        hrec.2.1, hrec.2.2.trans hone.2.2⟩

/-- A surviving member of any registry entry after a `removeListener` call was
already a member of that element's entry before the call, and its listener
differs from the removed identity when the call targeted that element. -/
theorem removeListener_entry_back (s : MState) (el : Nat) (ev : String)
    (lid : LId) (el' : Nat) (l' : List EventListenerInfo)
    (hl' : assocGet (removeListener s el ev lid).listenerMap el' = some l') :
    ∀ x ∈ l', (∃ l0, assocGet s.listenerMap el' = some l0 ∧ x ∈ l0) ∧
      (el' = el → x.listener ≠ lid) := by
  intro x hx
  rw [removeListener_listenerMap] at hl'
  by_cases hel : el' = el
  · subst hel
    by_cases hupd : (((assocGet s.listenerMap el').getD []).filter
        (fun info => info.listener ≠ lid)).length > 0
    · rw [if_pos hupd, assocGet_set_self] at hl'
      have hlx : x ∈ ((assocGet s.listenerMap el').getD []).filter
          (fun info => info.listener ≠ lid) := by
        rw [show ((assocGet s.listenerMap el').getD []).filter
            (fun info => info.listener ≠ lid) = l' from by simpa using hl']
        exact hx
      have hmem := List.mem_filter.mp hlx
      cases hget : assocGet s.listenerMap el' with
      | none =>
          rw [hget] at hmem
          simp at hmem
      | some l0 =>
          rw [hget] at hmem
          simp only [Option.getD_some] at hmem
          exact ⟨⟨l0, rfl, hmem.1⟩, fun _ => by simpa using hmem.2⟩
    · rw [if_neg hupd, assocGet_delete_self] at hl'
      exact absurd hl' (by simp)
  · by_cases hupd : (((assocGet s.listenerMap el).getD []).filter
        (fun info => info.listener ≠ lid)).length > 0
    · rw [if_pos hupd, assocGet_set_ne s.listenerMap el el' _ hel] at hl'
      exact ⟨⟨l', hl', hx⟩, fun h => absurd h hel⟩
    · rw [if_neg hupd, assocGet_delete_ne s.listenerMap el el' hel] at hl'
      exact ⟨⟨l', hl', hx⟩, fun h => absurd h hel⟩

/-- A surviving member of any registry entry after sweeping a list of
registrations through `removeListener` was already in that element's entry
beforehand, and its listener differs from every swept registration that
targeted the element. -/
theorem foldRemove_survivors :
    ∀ (items : List EventListenerInfo) (s : MState) (el : Nat)
      (l : List EventListenerInfo),
      assocGet ((items.foldl
          (fun s2 i => removeListener s2 i.element i.event i.listener) s).listenerMap)
        el = some l →
      ∀ x ∈ l, (∃ l0, assocGet s.listenerMap el = some l0 ∧ x ∈ l0) ∧
        (∀ i ∈ items, i.element = el → x.listener ≠ i.listener) := by
  intro items
  induction items with
  | nil =>
      intro s el l hl x hx
      exact ⟨⟨l, hl, hx⟩, by intro i hi; simp at hi⟩
  | cons i t ih =>
      intro s el l hl x hx
      have hrec := ih (removeListener s i.element i.event i.listener) el l hl x hx
      obtain ⟨⟨l1, hl1, hx1⟩, hne⟩ := hrec
      have hback := removeListener_entry_back s i.element i.event i.listener el l1 hl1 x hx1
      refine ⟨hback.1, ?_⟩
      intro j hj hel
      rcases List.mem_cons.mp hj with he | hm
      · subst he
        exact hback.2 hel.symm
      · exact hne j hm hel

/-- `removeListener` never introduces chain-tagged registrations. -/
theorem removeListener_noCid (cid : String) (s : MState) (el2 : Nat)
    (ev : String) (lid : LId) (el : Nat) (h : NoCid cid s el) :
    NoCid cid (removeListener s el2 ev lid) el := by
  intro l hl x hx
  obtain ⟨⟨l0, hl0, hx0⟩, _⟩ := removeListener_entry_back s el2 ev lid el l hl x hx
  exact h l0 hl0 x hx0

/-- Sweeping registrations through `removeListener` never introduces
chain-tagged registrations. -/
theorem foldRemove_noCid (cid : String) (items : List EventListenerInfo)
    (s : MState) (el : Nat) (h : NoCid cid s el) :
    NoCid cid (items.foldl
      (fun s2 i => removeListener s2 i.element i.event i.listener) s) el := by
  intro l hl x hx
  obtain ⟨⟨l0, hl0, hx0⟩, _⟩ := foldRemove_survivors items s el l hl x hx
  exact h l0 hl0 x hx0

/-- One element's sweep in `removeEventChain` never introduces chain-tagged
registrations on any element. -/
theorem removeChainInfosAt_noCid (cid : String) (s : MState) (el2 el : Nat)
    (h : NoCid cid s el) : NoCid cid (removeChainInfosAt cid s el2) el := by
  cases hget : assocGet s.listenerMap el2 with
  | none =>
      have hred : removeChainInfosAt cid s el2 = s := by
        unfold removeChainInfosAt
        rw [hget]
      rw [hred]
      exact h
  | some listeners =>
      have hred : removeChainInfosAt cid s el2 =
          (listeners.filter (fun info => info.chainId = some cid)).foldl
            (fun s2 info => removeListener s2 info.element info.event info.listener)
            s := by
        unfold removeChainInfosAt
        rw [hget]
      rw [hred]
      exact foldRemove_noCid cid _ s el h

/-- `removeListener` keeps every registration stored under its own element's
key. -/
theorem removeListener_keyed (s : MState) (el : Nat) (ev : String) (lid : LId)
    (h : Keyed s) : Keyed (removeListener s el ev lid) := by
  intro p hp i hi
  rw [removeListener_listenerMap] at hp
  by_cases hupd : (((assocGet s.listenerMap el).getD []).filter
      (fun info => info.listener ≠ lid)).length > 0
  · rw [if_pos hupd] at hp
    rcases mem_assocSet _ _ _ _ hp with he | hm
    · subst he
      simp only at hi
      have hi2 := List.mem_filter.mp hi
      cases hget : assocGet s.listenerMap el with
      | none =>
          rw [hget] at hi2
          simp at hi2
      | some l =>
          rw [hget] at hi2
          simp only [Option.getD_some] at hi2
          exact h (el, l) (assocGet_mem _ _ _ hget) i hi2.1
    · exact h p hm i hi
  · rw [if_neg hupd] at hp
    exact h p (List.mem_filter.mp hp).1 i hi

theorem foldRemove_keyed (items : List EventListenerInfo) :
    ∀ s : MState, Keyed s →
      Keyed (items.foldl
        (fun s2 i => removeListener s2 i.element i.event i.listener) s) := by
  induction items with
  | nil => intro s h; exact h
  | cons i t ih =>
      intro s h
      exact ih _ (removeListener_keyed s i.element i.event i.listener h)

theorem removeChainInfosAt_keyed (cid : String) (s : MState) (el : Nat)
    (h : Keyed s) : Keyed (removeChainInfosAt cid s el) := by
  cases hget : assocGet s.listenerMap el with
  | none =>
      have hred : removeChainInfosAt cid s el = s := by
        unfold removeChainInfosAt
        rw [hget]
      rw [hred]
      exact h
  | some listeners =>
      have hred : removeChainInfosAt cid s el =
          (listeners.filter (fun info => info.chainId = some cid)).foldl
            (fun s2 info => removeListener s2 info.element info.event info.listener)
            s := by
        unfold removeChainInfosAt
        rw [hget]
      rw [hred]
      exact foldRemove_keyed _ s h

/-- After one element's sweep in `removeEventChain`, no registration of that
element remains tagged with the chain id (given element-keyed storage). -/
theorem removeChainInfosAt_clears (cid : String) (s : MState) (el : Nat)
    (hk : Keyed s) : NoCid cid (removeChainInfosAt cid s el) el := by
  cases hget : assocGet s.listenerMap el with
  | none =>
      have hred : removeChainInfosAt cid s el = s := by
        unfold removeChainInfosAt
        rw [hget]
      rw [hred]
      intro l hl
      rw [hget] at hl
      exact absurd hl (by simp)
  | some listeners =>
      have hred : removeChainInfosAt cid s el =
          (listeners.filter (fun info => info.chainId = some cid)).foldl
            (fun s2 info => removeListener s2 info.element info.event info.listener)
            s := by
        unfold removeChainInfosAt
        rw [hget]
      rw [hred]
      intro l hl x hx hcid
      obtain ⟨⟨l0, hl0, hx0⟩, hne⟩ := foldRemove_survivors _ s el l hl x hx
      have hl0e : l0 = listeners := by
        rw [hget] at hl0
        exact (Option.some.inj hl0).symm
      have hxl : x ∈ listeners := hl0e ▸ hx0
      have hxel : x.element = el :=
        hk (el, listeners) (assocGet_mem _ _ _ hget) x hxl
      have hxf : x ∈ listeners.filter (fun info => info.chainId = some cid) :=
        List.mem_filter.mpr ⟨hxl, by simp [hcid]⟩
      exact hne x hxf hxel rfl

/-- `NoCid` survives the whole document walk of `removeEventChain`. -/
theorem foldRemoveChain_pres (cid : String) :
    ∀ (els : List Nat) (s : MState) (el : Nat), NoCid cid s el →
      NoCid cid (els.foldl (removeChainInfosAt cid) s) el := by
  intro els
  induction els with
  | nil => intro s el h; exact h
  | cons e t ih =>
      intro s el h
      exact ih _ el (removeChainInfosAt_noCid cid s e el h)

/-- After the document walk of `removeEventChain`, no element of the walked
list keeps a registration tagged with the chain id. -/
theorem foldRemoveChain_clears (cid : String) :
    ∀ (els : List Nat) (s : MState), Keyed s →
      ∀ el ∈ els, NoCid cid (els.foldl (removeChainInfosAt cid) s) el := by
  intro els
  induction els with
  | nil => intro s _ el hel; simp at hel
  | cons e t ih =>
      intro s hk el hel
      rcases List.mem_cons.mp hel with he | hm
      · subst he
        exact foldRemoveChain_pres cid t _ el
          (removeChainInfosAt_clears cid s el hk)
      · exact ih (removeChainInfosAt cid s e) (removeChainInfosAt_keyed cid s e hk) el hm

/-- C6 counterexample: create chain "c" on element 0 and remove it; the
chain's executor listener (proxy 0) is still physically attached to the
element, because the executor registration carries no chain id and the
removal loop filters on the chain id. -/
theorem removeEventChain_leaves_executor_attached :
    createEventChain (initSt [0]) "c" 0 "click" [100] = Except.ok chainSt ∧
    (0, "click", LId.proxy 0) ∈ (removeEventChain chainSt "c").attached ∧
    assocGet (removeEventChain chainSt "c").chainedHandlers "c" = none := by
  refine ⟨rfl, by decide, by decide⟩

/-- C6 (amended): removeEventChain on an unknown id is a no-op; on a live id
it deletes the chain's stage list, so subsequent triggering events on the
element run no stages of the chain, and it removes the chain-tagged stage
registrations from in-document elements (no registration tagged with the
chain id survives on any in-document element, given element-keyed storage) —
but the executor registration, which carries no chain id, stays physically
attached to the element. -/
theorem removeEventChain_noop_and_no_stages {D : Type} (env : Nat → Stage D)
    (st0 st : MState) (cid : String) (stages : List Nat) (ev : Nat)
    (h0 : assocGet st0.chainedHandlers cid = none)
    (h1 : assocGet st.chainedHandlers cid = some stages)
    (hraw : RawTagged st) :
    removeEventChain st0 cid = st0 ∧
    assocGet (removeEventChain st cid).chainedHandlers cid = none ∧
    execChain env (removeEventChain st cid) cid ev = ⟨[], 0⟩ ∧
    (∀ e2 v2 n, (e2, v2, LId.proxy n) ∈ st.attached →
      (e2, v2, LId.proxy n) ∈ (removeEventChain st cid).attached) ∧
    (Keyed st → ∀ el ∈ st.inDoc, NoCid cid (removeEventChain st cid) el) := by
  have hne : ¬(assocGet st.chainedHandlers cid).isNone := by
    rw [h1]
    simp
  have hred : removeEventChain st cid =
      { st.inDoc.foldl (removeChainInfosAt cid) st with
          chainedHandlers :=
            assocDelete (st.inDoc.foldl (removeChainInfosAt cid) st).chainedHandlers cid } := by
    unfold removeEventChain
    rw [if_neg hne]
  have hfold := foldRemoveChain_proxy cid st.inDoc st hraw
  refine ⟨?_, ?_, ?_, ?_, ?_⟩
  · unfold removeEventChain
    rw [if_pos (by rw [h0]; rfl)]
  · rw [hred]
    exact assocGet_delete_self _ _
  · unfold execChain
    rw [hred]
    have hnone : assocGet (assocDelete
        (st.inDoc.foldl (removeChainInfosAt cid) st).chainedHandlers cid) cid = none :=
      assocGet_delete_self _ _
    rw [hnone]
    rfl
  · intro e2 v2 n hmem
    rw [hred]
    exact hfold.1 e2 v2 n hmem
  · intro hk el hel
    rw [hred]
    intro l hl x hx
    exact foldRemoveChain_clears cid st.inDoc st hk el hel l hl x hx

theorem removeEventChain_witness :
    removeEventChain (initSt []) "c" = initSt [] ∧
    assocGet (removeEventChain chainSt "c").chainedHandlers "c" = none ∧
    execChain (fun m => stageOkC m) (removeEventChain chainSt "c") "c" 3 = ⟨[], 0⟩ ∧
    (∀ e2 v2 n, (e2, v2, LId.proxy n) ∈ chainSt.attached →
      (e2, v2, LId.proxy n) ∈ (removeEventChain chainSt "c").attached) ∧
    (∀ el ∈ chainSt.inDoc, NoCid "c" (removeEventChain chainSt "c") el) := by
  have h := removeEventChain_noop_and_no_stages (fun m => stageOkC m) (initSt [])
    chainSt "c" [100] 3 rfl (by decide) (by unfold RawTagged; decide)
  exact ⟨h.1, h.2.1, h.2.2.1, h.2.2.2.1, h.2.2.2.2 (by unfold Keyed; decide)⟩

end RemoveChainClaim

section CleanupClaim

theorem addListener_listenerMap (st : MState) (el : Nat) (ev : String)
    (cond : Option Bool) :
    (addListener st el ev cond).1.listenerMap = assocSet st.listenerMap el
      ((assocGet st.listenerMap el).getD [] ++
        [{ element := el, event := ev, listener := LId.proxy st.nextId,
           condition := cond }]) := by
  simp only [addListener]
  split <;> rfl

theorem addListener_marker (st : MState) (el : Nat) (ev : String)
    (cond : Option Bool) :
    (addListener st el ev cond).1.marker =
      (if cond.getD true then setAdd st.marker el else st.marker) := by
  simp only [addListener]
  split <;> rfl

theorem addListener_inDoc (st : MState) (el : Nat) (ev : String)
    (cond : Option Bool) : (addListener st el ev cond).1.inDoc = st.inDoc := by
  simp only [addListener]
  split <;> rfl

theorem addListener_mutActive (st : MState) (el : Nat) (ev : String)
    (cond : Option Bool) : (addListener st el ev cond).1.mutActive = st.mutActive := by
  simp only [addListener]
  split <;> rfl

theorem wf_initSt (doc : List Nat) : WF (initSt doc) := by
  refine ⟨⟨?_, ?_, ?_, ?_⟩, ?_⟩ <;> intro p hp <;> simp [initSt, assocGet] at hp

theorem wf_addListener (st : MState) (el : Nat) (ev : String) (cond : Option Bool)
    (h : WF st) : WF (addListener st el ev cond).1 := by
  obtain ⟨⟨h1, h2, h3, h4⟩, h5⟩ := h
  have hmem : ∀ p, p ∈ (addListener st el ev cond).1.listenerMap →
      p = (el, (assocGet st.listenerMap el).getD [] ++
        [{ element := el, event := ev, listener := LId.proxy st.nextId,
           condition := cond }]) ∨ p ∈ st.listenerMap := by
    intro p hp
    rw [addListener_listenerMap] at hp
    exact mem_assocSet _ _ _ _ hp
  have hold : ∀ i, i ∈ (assocGet st.listenerMap el).getD [] →
      ∃ l, assocGet st.listenerMap el = some l ∧ i ∈ l := by
    intro i hi
    cases hget : assocGet st.listenerMap el with
    | none => rw [hget] at hi; simp at hi
    | some l => rw [hget] at hi; exact ⟨l, rfl, by simpa using hi⟩
  refine ⟨⟨?_, ?_, ?_, ?_⟩, ?_⟩
  · intro p hp
    rcases hmem p hp with he | hm
    · rw [he]; simp
    · exact h1 p hm
  · intro p hp i hi
    rcases hmem p hp with he | hm
    · subst he
      simp only at hi
      rcases List.mem_append.mp hi with hiold | hinew
      · obtain ⟨l, hl, hil⟩ := hold i hiold
        exact h2 (el, l) (assocGet_mem _ _ _ hl) i hil
      · simp at hinew
        rw [hinew]
    · exact h2 p hm i hi
  · intro p hp
    rcases hmem p hp with he | hm
    · subst he
      refine ⟨{ element := el, event := ev, listener := LId.proxy st.nextId,
                condition := cond }, by simp, rfl⟩
    · exact h3 p hm
  · intro p hp i hi hsome
    rcases hmem p hp with he | hm
    · subst he
      simp only at hi
      rcases List.mem_append.mp hi with hiold | hinew
      · obtain ⟨l, hl, hil⟩ := hold i hiold
        exact h4 (el, l) (assocGet_mem _ _ _ hl) i hil hsome
      · simp at hinew
        rw [hinew] at hsome
        simp at hsome
    · exact h4 p hm i hi hsome
  · intro e hmk hdoc
    rw [addListener_inDoc] at hdoc
    rw [addListener_marker] at hmk
    rw [addListener_listenerMap]
    by_cases hee : e = el
    · subst hee
      rw [assocGet_set_self]
      rfl
    · rw [assocGet_set_ne _ _ _ _ hee]
      apply h5 e _ hdoc
      by_cases hc : cond.getD true
      · rw [if_pos hc] at hmk
        rcases mem_setAdd.mp hmk with he2 | hm2
        · exact absurd he2 hee
        · exact hm2
      · rw [if_neg hc] at hmk
        exact hmk

theorem intersectStep_listenerMap (t : Nat) (b : Bool) (st : MState)
    (info : EventListenerInfo) :
    (intersectStep t b st info).listenerMap = st.listenerMap := by
  simp only [intersectStep]
  split
  · rfl
  · split <;> rfl

theorem intersectStep_inDoc (t : Nat) (b : Bool) (st : MState)
    (info : EventListenerInfo) :
    (intersectStep t b st info).inDoc = st.inDoc := by
  simp only [intersectStep]
  split
  · rfl
  · split <;> rfl

theorem intersectStep_marker_sub (t : Nat) (b : Bool) (st : MState)
    (info : EventListenerInfo) :
    ∀ e, e ∈ (intersectStep t b st info).marker → e = t ∨ e ∈ st.marker := by
  intro e he
  simp only [intersectStep] at he
  split at he
  · rcases mem_setAdd.mp he with h1 | h2
    · exact Or.inl h1
    · exact Or.inr h2
  · split at he
    · exact Or.inr (mem_setRemove.mp he).1
    · exact Or.inr he

theorem intersectFold (t : Nat) (b : Bool) :
    ∀ (ls : List EventListenerInfo) (st : MState),
      ((ls.foldl (intersectStep t b) st).listenerMap = st.listenerMap) ∧
      ((ls.foldl (intersectStep t b) st).inDoc = st.inDoc) ∧
      (∀ e, e ∈ (ls.foldl (intersectStep t b) st).marker →
        e = t ∨ e ∈ st.marker) := by
  intro ls
  induction ls with
  | nil => intro st; exact ⟨rfl, rfl, fun _ h => Or.inr h⟩
  | cons i rest ih =>
      intro st
      have hr := ih (intersectStep t b st i)
      refine ⟨hr.1.trans (intersectStep_listenerMap t b st i),
        hr.2.1.trans (intersectStep_inDoc t b st i), ?_⟩
      intro e he
      rcases hr.2.2 e he with h1 | h2
      · exact Or.inl h1
      · exact intersectStep_marker_sub t b st i e h2

theorem wf_handleIntersectOne (st : MState) (t : Nat) (b : Bool) (h : WF st) :
    WF (handleIntersectOne st t b) := by
  obtain ⟨hmap, hmk⟩ := h
  simp only [handleIntersectOne]
  cases hget : assocGet (MState.listenerMap
      { st with visibleNow := if b then setAdd st.visibleNow t
                else setRemove st.visibleNow t }) t with
  | none => exact ⟨hmap, hmk⟩
  | some listeners =>
      have hf := intersectFold t b listeners
        { st with visibleNow := if b then setAdd st.visibleNow t
                  else setRemove st.visibleNow t }
      constructor
      · rw [show (MapWF _) = _ from congrArg MapWF rfl]
        unfold MapWF RawTagged
        rw [hf.1]
        exact hmap
      · intro e hemk hedoc
        rw [hf.1]
        rw [hf.2.1] at hedoc
        rcases hf.2.2 e hemk with he | he
        · subst he
          rw [hget]
          rfl
        · exact hmk e he hedoc

theorem wf_handleIntersect (st : MState) (entries : List (Nat × Bool))
    (h : WF st) : WF (handleIntersect st entries) := by
  unfold handleIntersect
  induction entries generalizing st with
  | nil => exact h
  | cons e rest ih =>
      exact ih (handleIntersectOne st e.1 e.2) (wf_handleIntersectOne st e.1 e.2 h)

theorem wf_docRemove (st : MState) (root : Nat) (descs : List Nat) (h : WF st) :
    WF (docRemove st root descs) := by
  obtain ⟨hmap, hmk⟩ := h
  refine ⟨hmap, ?_⟩
  intro e hemk hedoc
  have hedoc2 : e ∈ st.inDoc := by
    have := List.mem_filter.mp hedoc
    exact this.1
  exact hmk e hemk hedoc2

theorem wf_mutationRemovedNode (st : MState) (root : Nat)
    (hroot : root ∉ st.inDoc) (h : WF st) :
    WF (mutationRemovedNode st root) := by
  obtain ⟨⟨h1, h2, h3, h4⟩, h5⟩ := h
  unfold mutationRemovedNode
  cases hget : assocGet st.listenerMap root with
  | none => exact ⟨⟨h1, h2, h3, h4⟩, h5⟩
  | some infos =>
      have hne : infos ≠ [] := h1 (root, infos) (assocGet_mem _ _ _ hget)
      have helem : ∀ i ∈ infos, i.element = root :=
        fun i hi => h2 (root, infos) (assocGet_mem _ _ _ hget) i hi
      have hmap := foldRemove_map root infos st helem
        (Or.inr ⟨infos, hget, hne, fun x hx => ⟨x, hx, rfl⟩⟩)
      have hfields := foldRemove_fields infos st
      have hsubmap : ∀ p, p ∈ (infos.foldl
          (fun s2 i => removeListener s2 i.element i.event i.listener) st).listenerMap →
          p ∈ st.listenerMap := by
        intro p hp
        rw [hmap] at hp
        exact (List.mem_filter.mp hp).1
      refine ⟨⟨?_, ?_, ?_, ?_⟩, ?_⟩
      · intro p hp; exact h1 p (hsubmap p hp)
      · intro p hp; exact h2 p (hsubmap p hp)
      · intro p hp; exact h3 p (hsubmap p hp)
      · intro p hp; exact h4 p (hsubmap p hp)
      · intro e hemk hedoc
        rw [hfields.1] at hemk
        rw [hfields.2.2.1] at hedoc
        rw [hmap]
        by_cases heq : e = root
        · exact absurd (heq ▸ hedoc) hroot
        · rw [assocGet_delete_ne _ _ _ heq]
          exact h5 e hemk hedoc

theorem wf_removeSubtree (st : MState) (root : Nat) (descs : List Nat)
    (h : WF st) : WF (removeSubtree st root descs) := by
  have h0 : WF (docRemove st root descs) := wf_docRemove st root descs h
  have hroot : root ∉ (docRemove st root descs).inDoc := by
    intro hin
    have := List.mem_filter.mp hin
    simp at this
  show WF (if (docRemove st root descs).mutActive = true
           then mutationRemoved (docRemove st root descs) [root]
           else docRemove st root descs)
  split
  · exact wf_mutationRemovedNode (docRemove st root descs) root hroot h0
  · exact h0

theorem wf_pushChainInfo (el : Nat) (ev cid : String) (s : MState) (p : Nat × Nat)
    (h : WF s) (hsome : (assocGet s.listenerMap el).isSome) :
    WF (pushChainInfo el ev cid s p) ∧
    (assocGet (pushChainInfo el ev cid s p).listenerMap el).isSome := by
  obtain ⟨⟨h1, h2, h3, h4⟩, h5⟩ := h
  cases hget : assocGet s.listenerMap el with
  | none => rw [hget] at hsome; simp at hsome
  | some l =>
      have hlm : (pushChainInfo el ev cid s p).listenerMap =
          assocSet s.listenerMap el (l ++
            [{ element := el, event := ev, listener := LId.raw p.2,
               condition := none, chainId := some cid, chainPosition := some p.1,
               isChainedHandler := true }]) := by
        simp only [pushChainInfo]
        rw [hget]
        rfl
      have hmem : ∀ q, q ∈ (pushChainInfo el ev cid s p).listenerMap →
          q = (el, l ++
            [{ element := el, event := ev, listener := LId.raw p.2,
               condition := none, chainId := some cid, chainPosition := some p.1,
               isChainedHandler := true }]) ∨ q ∈ s.listenerMap := by
        intro q hq
        rw [hlm] at hq
        exact mem_assocSet _ _ _ _ hq
      have hlin : (el, l) ∈ s.listenerMap := assocGet_mem _ _ _ hget
      refine ⟨⟨⟨?_, ?_, ?_, ?_⟩, ?_⟩, ?_⟩
      · intro q hq
        rcases hmem q hq with he | hm
        · rw [he]; simp
        · exact h1 q hm
      · intro q hq i hi
        rcases hmem q hq with he | hm
        · subst he
          simp only at hi
          rcases List.mem_append.mp hi with hiold | hinew
          · exact h2 (el, l) hlin i hiold
          · simp at hinew
            rw [hinew]
        · exact h2 q hm i hi
      · intro q hq
        rcases hmem q hq with he | hm
        · subst he
          obtain ⟨i0, hi0, hraw0⟩ := h3 (el, l) hlin
          exact ⟨i0, by simp [hi0], hraw0⟩
        · exact h3 q hm
      · intro q hq i hi hsome2
        rcases hmem q hq with he | hm
        · subst he
          simp only at hi
          rcases List.mem_append.mp hi with hiold | hinew
          · exact h4 (el, l) hlin i hiold hsome2
          · simp at hinew
            rw [hinew]
            rfl
        · exact h4 q hm i hi hsome2
      · intro e hemk hedoc
        rw [hlm]
        by_cases hee : e = el
        · subst hee
          rw [assocGet_set_self]
          rfl
        · rw [assocGet_set_ne _ _ _ _ hee]
          exact h5 e hemk hedoc
      · rw [hlm, assocGet_set_self]
        rfl

theorem wf_pushFold (el : Nat) (ev cid : String) :
    ∀ (ps : List (Nat × Nat)) (s : MState),
      WF s → (assocGet s.listenerMap el).isSome →
      WF (ps.foldl (pushChainInfo el ev cid) s) := by
  intro ps
  induction ps with
  | nil => intro s h _; exact h
  | cons p rest ih =>
      intro s h hsome
      have hp := wf_pushChainInfo el ev cid s p h hsome
      exact ih (pushChainInfo el ev cid s p) hp.1 hp.2

theorem wf_createEventChain (st st' : MState) (cid : String) (el : Nat)
    (ev : String) (handlers : List Nat) (h : WF st)
    (hok : createEventChain st cid el ev handlers = Except.ok st') : WF st' := by
  unfold createEventChain at hok
  by_cases hdup : (assocGet st.chainedHandlers cid).isSome = true
  · rw [if_pos hdup] at hok
    exact absurd hok (by simp)
  · rw [if_neg hdup] at hok
    simp only [Except.ok.injEq] at hok
    subst hok
    set st1 : MState :=
      { st with chainedHandlers := assocSet st.chainedHandlers cid handlers } with hst1
    have h1 : WF st1 := h
    have h2 : WF (addListener st1 el ev none).1 := wf_addListener st1 el ev none h1
    have h3 : (assocGet (addListener st1 el ev none).1.listenerMap el).isSome := by
      rw [addListener_listenerMap, assocGet_set_self]
      rfl
    exact wf_pushFold el ev cid handlers.enum (addListener st1 el ev none).1 h2 h3

theorem wf_removeListenerRaw (s : MState) (el : Nat) (ev : String) (lid : LId)
    (hlid : lid.isRawId = true) (h : WF s) : WF (removeListener s el ev lid) := by
  obtain ⟨⟨h1, h2, h3, h4⟩, h5⟩ := h
  cases hget : assocGet s.listenerMap el with
  | none =>
      have hlm : (removeListener s el ev lid).listenerMap = s.listenerMap := by
        rw [removeListener_listenerMap, hget]
        simpa using assocDelete_of_get_none _ _ hget
      refine ⟨⟨?_, ?_, ?_, ?_⟩, ?_⟩ <;>
        first
        | (intro q hq; rw [hlm] at hq
           first
           | exact h1 q hq
           | exact h2 q hq
           | exact h3 q hq
           | exact h4 q hq)
        | (intro e hemk hedoc
           rw [removeListener_marker] at hemk
           rw [removeListener_inDoc] at hedoc
           rw [hlm]
           exact h5 e hemk hedoc)
  | some l =>
      have hlin : (el, l) ∈ s.listenerMap := assocGet_mem _ _ _ hget
      obtain ⟨i0, hi0, hraw0⟩ := h3 (el, l) hlin
      have hi0f : i0 ∈ l.filter (fun info => info.listener ≠ lid) := by
        apply List.mem_filter.mpr
        refine ⟨hi0, ?_⟩
        simp only [ne_eq, decide_eq_true_eq]
        intro heq
        rw [heq, hlid] at hraw0
        exact absurd hraw0 (by simp)
      have hne : (l.filter (fun info => info.listener ≠ lid)).length > 0 := by
        cases hfl : l.filter (fun info => info.listener ≠ lid) with
        | nil => rw [hfl] at hi0f; simp at hi0f
        | cons x xs => simp
      have hlm : (removeListener s el ev lid).listenerMap =
          assocSet s.listenerMap el (l.filter (fun info => info.listener ≠ lid)) := by
        rw [removeListener_listenerMap, hget]
        simp only [Option.getD_some]
        rw [if_pos hne]
      have hmem : ∀ q, q ∈ (removeListener s el ev lid).listenerMap →
          q = (el, l.filter (fun info => info.listener ≠ lid)) ∨
          q ∈ s.listenerMap := by
        intro q hq
        rw [hlm] at hq
        exact mem_assocSet _ _ _ _ hq
      refine ⟨⟨?_, ?_, ?_, ?_⟩, ?_⟩
      · intro q hq
        rcases hmem q hq with he | hm
        · rw [he]
          intro hemp
          simp only at hemp
          rw [hemp] at hi0f
          simp at hi0f
        · exact h1 q hm
      · intro q hq i hi
        rcases hmem q hq with he | hm
        · subst he
          exact h2 (el, l) hlin i (List.mem_filter.mp hi).1
        · exact h2 q hm i hi
      · intro q hq
        rcases hmem q hq with he | hm
        · subst he
          exact ⟨i0, hi0f, hraw0⟩
        · exact h3 q hm
      · intro q hq i hi hsome2
        rcases hmem q hq with he | hm
        · subst he
          exact h4 (el, l) hlin i (List.mem_filter.mp hi).1 hsome2
        · exact h4 q hm i hi hsome2
      · intro e hemk hedoc
        rw [removeListener_marker] at hemk
        rw [removeListener_inDoc] at hedoc
        rw [hlm]
        by_cases hee : e = el
        · subst hee
          rw [assocGet_set_self]
          rfl
        · rw [assocGet_set_ne _ _ _ _ hee]
          exact h5 e hemk hedoc

theorem wf_foldRemoveRaw :
    ∀ (items : List EventListenerInfo) (s : MState),
      (∀ i ∈ items, i.listener.isRawId = true) →
      WF s →
      WF (items.foldl (fun s2 i => removeListener s2 i.element i.event i.listener) s) := by
  intro items
  induction items with
  | nil => intro s _ h; exact h
  | cons i rest ih =>
      intro s hitems h
      exact ih (removeListener s i.element i.event i.listener)
        (fun j hj => hitems j (by simp [hj]))
        (wf_removeListenerRaw s i.element i.event i.listener
          (hitems i (by simp)) h)

theorem wf_removeChainInfosAt (cid : String) (s : MState) (el : Nat)
    (h : WF s) : WF (removeChainInfosAt cid s el) := by
  unfold removeChainInfosAt
  cases hget : assocGet s.listenerMap el with
  | none => exact h
  | some listeners =>
      apply wf_foldRemoveRaw _ _ _ h
      intro i hi
      have hi2 := List.mem_filter.mp hi
      have hcid : i.chainId = some cid := by simpa using hi2.2
      exact h.1.2.2.2 (el, listeners) (assocGet_mem _ _ _ hget) i hi2.1
        (by simp [hcid])

theorem wf_removeEventChain (st : MState) (cid : String) (h : WF st) :
    WF (removeEventChain st cid) := by
  unfold removeEventChain
  split
  · exact h
  · have hfold : ∀ (els : List Nat) (s : MState), WF s →
        WF (els.foldl (removeChainInfosAt cid) s) := by
      intro els
      induction els with
      | nil => intro s hs; exact hs
      | cons e rest ih =>
          intro s hs
          exact ih (removeChainInfosAt cid s e) (wf_removeChainInfosAt cid s e hs)
    exact hfold st.inDoc st h

theorem wf_addToChain (st st' : MState) (cid : String) (hh : Nat)
    (pos : Option Int) (h : WF st)
    (hok : addToChain st cid hh pos = Except.ok st') : WF st' := by
  unfold addToChain at hok
  cases hget : assocGet st.chainedHandlers cid with
  | none => rw [hget] at hok; exact absurd hok (by simp)
  | some handlers =>
      rw [hget] at hok
      simp only [Except.ok.injEq] at hok
      subst hok
      exact h

theorem cleanupElement_inner :
    ∀ (ls : List EventListenerInfo) (s : MState) (el : Nat),
      ((ls.foldl (fun s2 info =>
        { s2 with attached := setRemove s2.attached (el, info.event, info.listener),
                  marker := setRemove s2.marker el }) s).listenerMap = s.listenerMap) ∧
      ((ls.foldl (fun s2 info =>
        { s2 with attached := setRemove s2.attached (el, info.event, info.listener),
                  marker := setRemove s2.marker el }) s).inDoc = s.inDoc) ∧
      (∀ e, e ∈ (ls.foldl (fun s2 info =>
        { s2 with attached := setRemove s2.attached (el, info.event, info.listener),
                  marker := setRemove s2.marker el }) s).marker → e ∈ s.marker) ∧
      (ls ≠ [] → el ∉ (ls.foldl (fun s2 info =>
        { s2 with attached := setRemove s2.attached (el, info.event, info.listener),
                  marker := setRemove s2.marker el }) s).marker) := by
  intro ls
  induction ls with
  | nil =>
      intro s el
      exact ⟨rfl, rfl, fun _ h => h, fun hne => absurd rfl hne⟩
  | cons info rest ih =>
      intro s el
      have hr := ih { s with
        attached := setRemove s.attached (el, info.event, info.listener),
        marker := setRemove s.marker el } el
      refine ⟨hr.1, hr.2.1, ?_, ?_⟩
      · intro e he
        have := hr.2.2.1 e he
        exact (mem_setRemove.mp this).1
      · intro _
        intro hin
        have := hr.2.2.1 el hin
        exact (mem_setRemove.mp this).2 rfl

theorem cleanupElement_props (s : MState) (el : Nat) :
    ((cleanupElement s el).listenerMap = s.listenerMap) ∧
    ((cleanupElement s el).inDoc = s.inDoc) ∧
    (∀ e, e ∈ (cleanupElement s el).marker → e ∈ s.marker) ∧
    (∀ l, assocGet s.listenerMap el = some l → l ≠ [] →
      el ∉ (cleanupElement s el).marker) := by
  unfold cleanupElement
  cases hget : assocGet s.listenerMap el with
  | none =>
      exact ⟨rfl, rfl, fun _ h => h, fun l hl => by simp at hl⟩
  | some listeners =>
      have h := cleanupElement_inner listeners s el
      refine ⟨h.1, h.2.1, h.2.2.1, ?_⟩
      intro l hl hlne
      have : l = listeners := by
        simpa using hl.symm
      subst this
      exact h.2.2.2 hlne

theorem cleanupFold :
    ∀ (marked : List Nat) (s : MState),
      (∀ el ∈ marked, ∃ l, assocGet s.listenerMap el = some l ∧ l ≠ []) →
      ((marked.foldl cleanupElement s).listenerMap = s.listenerMap) ∧
      ((marked.foldl cleanupElement s).inDoc = s.inDoc) ∧
      (∀ e, e ∈ (marked.foldl cleanupElement s).marker → e ∈ s.marker) ∧
      (∀ el ∈ marked, el ∉ (marked.foldl cleanupElement s).marker) := by
  intro marked
  induction marked with
  | nil => intro s _; exact ⟨rfl, rfl, fun _ h => h, by simp⟩
  | cons el rest ih =>
      intro s hent
      obtain ⟨l, hl, hlne⟩ := hent el (by simp)
      have hprops := cleanupElement_props s el
      have hrec := ih (cleanupElement s el) (by
        intro e he
        obtain ⟨l2, hl2, hl2ne⟩ := hent e (by simp [he])
        exact ⟨l2, by rw [hprops.1]; exact hl2, hl2ne⟩)
      refine ⟨hrec.1.trans hprops.1, hrec.2.1.trans hprops.2.1, ?_, ?_⟩
      · intro e he
        exact hprops.2.2.1 e (hrec.2.2.1 e he)
      · intro e he
        rcases List.mem_cons.mp he with heq | hrest
        · subst heq
          intro hin
          exact hprops.2.2.2 l hl hlne (hrec.2.2.1 e hin)
        · exact hrec.2.2.2 e hrest

theorem cleanUp_clears (st : MState) (h : WF st) :
    (∀ el ∈ (cleanUp st).inDoc, el ∉ (cleanUp st).marker) ∧
    (cleanUp st).listenerMap = [] ∧ WF (cleanUp st) := by
  obtain ⟨⟨h1, h2, h3, h4⟩, h5⟩ := h
  set st0 : MState := { st with observed := [], mutActive := false } with hst0
  have hent : ∀ el ∈ st0.inDoc.filter (fun e => decide (e ∈ st0.marker)),
      ∃ l, assocGet st0.listenerMap el = some l ∧ l ≠ [] := by
    intro el hel
    have hel2 := List.mem_filter.mp hel
    have hmk : el ∈ st.marker := by simpa [hst0] using hel2.2
    have hdoc : el ∈ st.inDoc := by simpa [hst0] using hel2.1
    have hsome := h5 el hmk hdoc
    cases hget : assocGet st.listenerMap el with
    | none => rw [hget] at hsome; simp at hsome
    | some l =>
        refine ⟨l, ?_, h1 (el, l) (assocGet_mem _ _ _ hget)⟩
        rfl
  have hfold := cleanupFold (st0.inDoc.filter (fun e => decide (e ∈ st0.marker)))
    st0 hent
  have hmarker : (cleanUp st).marker =
      ((st0.inDoc.filter (fun e => decide (e ∈ st0.marker))).foldl
        cleanupElement st0).marker := rfl
  have hdocEq : (cleanUp st).inDoc =
      ((st0.inDoc.filter (fun e => decide (e ∈ st0.marker))).foldl
        cleanupElement st0).inDoc := rfl
  have hLM : (cleanUp st).listenerMap = [] := rfl
  have hnomark : ∀ el ∈ (cleanUp st).inDoc, el ∉ (cleanUp st).marker := by
    intro el hdoc3 hmk3
    rw [hmarker] at hmk3
    have hmkst0 : el ∈ st0.marker := hfold.2.2.1 el hmk3
    have heldoc : el ∈ st0.inDoc := by
      rw [hdocEq] at hdoc3
      rw [hfold.2.1] at hdoc3
      exact hdoc3
    have hmarked : el ∈ st0.inDoc.filter (fun e => decide (e ∈ st0.marker)) :=
      List.mem_filter.mpr ⟨heldoc, by simpa using hmkst0⟩
    exact hfold.2.2.2 el hmarked hmk3
  refine ⟨hnomark, hLM, ⟨⟨?_, ?_, ?_, ?_⟩, ?_⟩⟩
  · intro p hp
    rw [hLM] at hp
    simp at hp
  · intro p hp
    rw [hLM] at hp
    simp at hp
  · intro p hp
    rw [hLM] at hp
    simp at hp
  · intro p hp
    rw [hLM] at hp
    simp at hp
  · intro e hemk hedoc
    exact absurd hemk (hnomark e hedoc)

theorem wf_applyStep (st : MState) (s : Step) (h : WF st) : WF (applyStep st s) := by
  cases s with
  | add el ev cond => exact wf_addListener st el ev cond h
  | intersect es => exact wf_handleIntersect st es h
  | removeSub r ds => exact wf_removeSubtree st r ds h
  | createChain cid el ev hs =>
      show WF (match createEventChain st cid el ev hs with
        | .ok st' => st'
        | .error _ => st)
      cases hc : createEventChain st cid el ev hs with
      | ok st' => exact wf_createEventChain st st' cid el ev hs h hc
      | error e => exact h
  | removeChain cid => exact wf_removeEventChain st cid h
  | addStage cid hh pos =>
      show WF (match addToChain st cid hh pos with
        | .ok st' => st'
        | .error _ => st)
      cases hc : addToChain st cid hh pos with
      | ok st' => exact wf_addToChain st st' cid hh pos h hc
      | error e => exact h
  | clean => exact (cleanUp_clears st h).2.2

theorem wf_run (doc : List Nat) (steps : List Step) : WF (run doc steps) := by
  unfold run
  have : ∀ (l : List Step) (s : MState), WF s → WF (l.foldl applyStep s) := by
    intro l
    induction l with
    | nil => intro s hs; exact hs
    | cons a rest ih => intro s hs; exact ih (applyStep s a) (wf_applyStep s a hs)
  exact this steps (initSt doc) (wf_initSt doc)

/-- C9: after `cleanUp()` returns, no element still in the document carries
the `data-listener-attached` marker attribute, whatever sequence of
registrations, chain operations, visibility notifications and subtree
removals preceded it, over any starting document; and the listener registry
is empty. -/
theorem cleanup_leaves_no_marker (doc : List Nat) (steps : List Step) :
    (∀ el ∈ (run doc (steps ++ [Step.clean])).inDoc,
      el ∉ (run doc (steps ++ [Step.clean])).marker) ∧
    (run doc (steps ++ [Step.clean])).listenerMap = [] := by
  have hwf : WF (run doc steps) := wf_run doc steps
  have heq : run doc (steps ++ [Step.clean]) = cleanUp (run doc steps) := by
    unfold run
    rw [List.foldl_append]
    rfl
  rw [heq]
  exact ⟨(cleanUp_clears _ hwf).1, (cleanUp_clears _ hwf).2.1⟩

end CleanupClaim

end TsEventManager
